import Mathlib

set_option linter.unusedVariables false

/-!
Shallow embedding of `app.py`, a CSV-driven department report generator:
a streaming CSV row reader (`read_csv`), two linear-scan aggregators
(`get_hierarchy`, `get_statistics`), report writers (`print_statistics`,
`save_statistics`) and a memoizing menu loop (`main`).

Files are modelled as their textual content (`List Char`), with `none`
standing for a missing file.  Python exceptions are modelled by the
`PyErr` error type carried in `Except`.  Python `int` is arbitrary
precision, hence `Int`; the `float` sentinels `inf` / `-inf` used by the
statistics aggregator are modelled by `WithTop Int` / `WithBot Int`.
-/

/-- A field of a CSV row, as a list of characters. -/
abbrev Fld : Type := List Char

/-- A CSV row: the ordered list of its fields. -/
abbrev Row : Type := List Fld

/-- The textual content of a file. -/
abbrev Content : Type := List Char

/-- The Python exceptions the program can raise: `FileNotFoundError` from
`open`, the `RuntimeError` a generator raises when `next` hits an empty
iterator (PEP 479), `IndexError` from an out-of-range row access, and
`ValueError` from a failed `int(...)` parse. -/
inductive PyErr : Type where
  | fileNotFound : PyErr
  | stopIterationRuntime : PyErr
  | indexError : PyErr
  | valueError : PyErr
  deriving DecidableEq, Repr

deriving instance DecidableEq for Except

/-- The spec's MalformedRowError taxonomy class: an `IndexError` (row too
short) or a `ValueError` (salary parse failure). -/
def IsMalformedRowError (e : PyErr) : Prop :=
  e = PyErr.indexError ∨ e = PyErr.valueError

/-- Decimal digit value of an ASCII digit character. -/
def charDigit? (c : Char) : Option Nat :=
  if '0' ≤ c && c ≤ '9' then some (c.toNat - '0'.toNat) else none

/-- ASCII digit character of a decimal digit value. -/
def digitChar : Nat → Char
  | 0 => '0'
  | 1 => '1'
  | 2 => '2'
  | 3 => '3'
  | 4 => '4'
  | 5 => '5'
  | 6 => '6'
  | 7 => '7'
  | 8 => '8'
  | 9 => '9'
  | _ => '*'

/-- ASCII whitespace, as stripped by Python `str.strip()` and ignored
around the argument of `int(...)`. -/
def isSpaceCh (c : Char) : Bool :=
  c = ' ' || c = '\t' || c = '\n' || c = '\x0b' || c = '\x0c' || c = '\r'

/-- Python `str.strip()`: drop leading and trailing whitespace. -/
def stripWs (l : List Char) : List Char :=
  ((l.dropWhile isSpaceCh).reverse.dropWhile isSpaceCh).reverse

/-- Digit scanner of Python `int(...)`: consumes digits with single
underscores allowed only between digits, accumulating the value. -/
def goDigits : Nat → List Char → Option Nat
  | acc, [] => some acc
  | _, ['_'] => none
  | acc, '_' :: c2 :: cs2 =>
    match charDigit? c2 with
    | some d => goDigits (10 * acc + d) cs2
    | none => none
  | acc, c :: cs =>
    match charDigit? c with
    | some d => goDigits (10 * acc + d) cs
    | none => none

/-- Unsigned decimal numeral as accepted by Python `int(...)` (ASCII
digits, with underscores allowed between digits). -/
def pyDigitsU : List Char → Option Nat
  | [] => none
  | c :: cs =>
    match charDigit? c with
    | some d => goDigits d cs
    | none => none

/-- Python `int(s)` on a string: strip whitespace, optional sign, then a
nonempty decimal numeral; `none` models the `ValueError` raise.  (Only
ASCII digits are modelled.) -/
def pyInt (l : List Char) : Option Int :=
  match stripWs l with
  | [] => none
  | c :: rest =>
    if c = '+' then (pyDigitsU rest).map (fun n => (n : Int))
    else if c = '-' then (pyDigitsU rest).map (fun n => -(n : Int))
    else (pyDigitsU (c :: rest)).map (fun n => (n : Int))

/-- One step of delimiter splitting: prepend a character to an already
split tail (a delimiter opens a fresh leading part). -/
def consSplit (d c : Char) : List (List Char) → List (List Char)
  | [] => [[]]
  | f :: rest => if c = d then [] :: f :: rest else (c :: f) :: rest

/-- Split a character list at every occurrence of the delimiter; always
returns at least one (possibly empty) part. -/
def splitFields (d : Char) : List Char → List (List Char)
  | [] => [[]]
  | c :: cs => consSplit d c (splitFields d cs)

/-- Join parts with the delimiter between consecutive parts. -/
def joinFields (d : Char) : List (List Char) → List Char
  | [] => []
  | [f] => f
  | f :: g :: rest => f ++ d :: joinFields d (g :: rest)

/-- One line parsed by `csv.reader`: a blank line yields the empty row,
any other line is split on the delimiter.  (CSV quoting is not modelled:
fields are taken verbatim, which matches `csv.reader` on quote-free
content.) -/
def splitRow (d : Char) (line : List Char) : Row :=
  if line = [] then [] else splitFields d line

/-- The lines produced by iterating a Python text file: the content split
at newlines, without the empty trailing piece after a final newline. -/
def linesOf (c : Content) : List (List Char) :=
  if (splitFields '\n' c).getLast? = some [] then (splitFields '\n' c).dropLast
  else splitFields '\n' c

/-- Embedding of `read_csv` (`app.py` lines 5-20), fully consumed: open
the file (`none` ⇒ `FileNotFoundError`), read the header line with
`next` (empty file ⇒ the generator's `RuntimeError`), yield the header
if and only if `return_header` is set, then yield the remaining rows in
file order, each split on the delimiter. -/
def readCsv (file : Option Content) (returnHeader : Bool) (delim : Char) :
    Except PyErr (List Row) :=
  match file with
  | none => .error .fileNotFound
  | some c =>
    match linesOf c with
    | [] => .error .stopIterationRuntime
    | l :: ls =>
      .ok ((if returnHeader then [splitRow delim l] else []) ++ ls.map (splitRow delim))

/-- Lookup in a Python dict modelled as an insertion-ordered association
list. -/
def lookupD {β : Type} (k : Fld) : List (Fld × β) → Option β
  | [] => none
  | e :: rest => if e.1 = k then some e.2 else lookupD k rest

/-- The dict pattern `if k not in d: d[k] = v0` followed by an in-place
update of `d[k]`: update the entry if the key is present, otherwise
append a fresh one (insertion order preserved). -/
def dictUpd {β : Type} (k : Fld) (v0 : β) (f : β → β) :
    List (Fld × β) → List (Fld × β)
  | [] => [(k, f v0)]
  | e :: rest => if e.1 = k then (e.1, f e.2) :: rest else e :: dictUpd k v0 f rest

/-- The per-department record built by `get_statistics`: count, running
sum, and min/max initialized to the `float('inf')` / `float('-inf')`
sentinels (modelled as `⊤` / `⊥`). -/
structure DeptStats where
  count : Nat
  sum_salary : Int
  min_salary : WithTop Int
  max_salary : WithBot Int
  deriving DecidableEq, Repr

/-- The Statistics mapping: department name to its `DeptStats`. -/
abbrev StatsMap : Type := List (Fld × DeptStats)

/-- The Hierarchy mapping: department name to its set of team names. -/
abbrev HierMap : Type := List (Fld × Finset Fld)

/-- Fresh statistics record (`app.py` lines 61-66). -/
def statInit : DeptStats :=
  { count := 0, sum_salary := 0, min_salary := ⊤, max_salary := ⊥ }

/-- One row's update of a department record (`app.py` lines 68-74). -/
def statBump (salary : Int) (s : DeptStats) : DeptStats :=
  { count := s.count + 1
    sum_salary := s.sum_salary + salary
    min_salary := min s.min_salary (salary : WithTop Int)
    max_salary := max s.max_salary (salary : WithBot Int) }

/-- The last field of a row (`row[-1]`), defaulting for the statement of
total functions; the embedding raises `IndexError` before using it on an
empty row. -/
def lastOf (r : Row) : Fld := (r.getLast?).getD []

/-- The department field of a row (`row[1]`), with the same proviso. -/
def deptOf (r : Row) : Fld := (r[1]?).getD []

/-- The team field of a row (`row[2]`), with the same proviso. -/
def teamOf (r : Row) : Fld := (r[2]?).getD []

/-- The parsed salary of a row (`int(row[-1])`), with the same proviso. -/
def salOf (r : Row) : Int := (pyInt (lastOf r)).getD 0

/-- One iteration of the `get_statistics` loop (`app.py` lines 57-74):
`row[1]` (IndexError when the row has fewer than 2 fields), `row[-1]`
(IndexError on an empty row), `int(...)` (ValueError on parse failure),
then the record update. -/
def statStep (s : StatsMap) (r : Row) : Except PyErr StatsMap :=
  match r[1]? with
  | none => .error .indexError
  | some _ =>
    match r.getLast? with
    | none => .error .indexError
    | some f =>
      match pyInt f with
      | none => .error .valueError
      | some sal => .ok (dictUpd (deptOf r) statInit (statBump sal) s)

/-- Embedding of `get_statistics` (`app.py` lines 51-76). -/
def getStatistics (file : Option Content) : Except PyErr StatsMap := do
  let rows ← readCsv file false ';'
  rows.foldlM statStep []

/-- One iteration of the `get_hierarchy` loop (`app.py` lines 30-34):
`row[1]` and `row[2]` (IndexError when the row has fewer than 3 fields),
then insertion of the team into the department's set. -/
def hierStep (h : HierMap) (r : Row) : Except PyErr HierMap :=
  match r[1]? with
  | none => .error .indexError
  | some _ =>
    match r[2]? with
    | none => .error .indexError
    | some team => .ok (dictUpd (deptOf r) (∅ : Finset Fld) (insert team) h)

/-- Embedding of `get_hierarchy` (`app.py` lines 23-36). -/
def getHierarchy (file : Option Content) : Except PyErr HierMap := do
  let rows ← readCsv file false ';'
  rows.foldlM hierStep []

/-- The pure effect of one good row on the statistics mapping. -/
def statUpdRow (s : StatsMap) (r : Row) : StatsMap :=
  dictUpd (deptOf r) statInit (statBump (salOf r)) s

/-- The pure effect of one good row on the hierarchy mapping. -/
def hierUpdRow (h : HierMap) (r : Row) : HierMap :=
  dictUpd (deptOf r) (∅ : Finset Fld) (insert (teamOf r)) h

/-- A row the statistics aggregator accepts: at least 2 fields and an
integer-parseable last field. -/
def GoodStat (r : Row) : Prop :=
  2 ≤ r.length ∧ (pyInt (lastOf r)).isSome = true

/-- A row the hierarchy aggregator accepts: at least 3 fields. -/
def GoodHier (r : Row) : Prop := 3 ≤ r.length

/-- Department `d` occurs in the given data rows. -/
def Occurs (d : Fld) (rs : List Row) : Prop := ∃ r ∈ rs, r[1]? = some d

instance (d : Fld) (rs : List Row) : Decidable (Occurs d rs) :=
  inferInstanceAs (Decidable (∃ r ∈ rs, r[1]? = some d))

/-- Number of data rows whose department field equals `d`. -/
def countD (d : Fld) (rs : List Row) : Nat :=
  (rs.filter (fun r => r[1]? = some d)).length

/-- The parseable salaries of the rows whose department field equals `d`,
in file order. -/
def salsD (d : Fld) (rs : List Row) : List Int :=
  rs.filterMap (fun r => if r[1]? = some d then pyInt (lastOf r) else none)

/-- Minimum of a salary list against the `+inf` sentinel. -/
def listMinW (l : List Int) : WithTop Int :=
  l.foldr (fun a b => min (a : WithTop Int) b) ⊤

/-- Maximum of a salary list against the `-inf` sentinel. -/
def listMaxW (l : List Int) : WithBot Int :=
  l.foldr (fun a b => max (a : WithBot Int) b) ⊥

/-- The set of team names seen with department `d` in the given rows. -/
def teamsOf (d : Fld) (rs : List Row) : Finset Fld :=
  ((rs.filter (fun r => r[1]? = some d)).filterMap (fun r => r[2]?)).toFinset

/-- Total team-membership count of a hierarchy, duplicates collapsed per
department. -/
def totalCard (h : HierMap) : Nat := (h.map (fun e => e.2.card)).sum

example : pyInt " -42 ".toList = some (-42) := by decide
example : pyInt "4_2".toList = some 42 := by decide
example : pyInt "4_".toList = none := by decide
example : pyInt "".toList = none := by decide
example : pyInt "4.0".toList = none := by decide
example : splitFields ';' "a;bc;".toList = ["a".toList, "bc".toList, []] := by decide
example : linesOf "a\nb\n".toList = ["a".toList, "b".toList] := by decide
example : linesOf "a\nb".toList = ["a".toList, "b".toList] := by decide
example : linesOf "".toList = [] := by decide
example :
    readCsv (some "h\na;b;c;5\n".toList) false ';' =
      .ok [["a".toList, "b".toList, "c".toList, "5".toList]] := by decide
example :
    getStatistics (some "h\nx;D;T;5\nx;D;T;7\n".toList) =
      .ok [("D".toList,
        { count := 2, sum_salary := 12, min_salary := (5 : Int), max_salary := (7 : Int) })] := by
  decide
example :
    ∃ ts, getHierarchy (some "h\nx;D;T;5\nx;D;U;7\n".toList) = .ok [("D".toList, ts)] ∧
      ts.card = 2 ∧ "T".toList ∈ ts ∧ "U".toList ∈ ts :=
  ⟨_, rfl, by decide, by decide, by decide⟩

/-! ### Basic lemmas about the dict model and row accessors -/

theorem except_bind_ok {ε α β : Type} (x : α) (f : α → Except ε β) :
    (Except.ok x >>= f : Except ε β) = f x := rfl

theorem except_bind_error {ε α β : Type} (e : ε) (f : α → Except ε β) :
    (Except.error e >>= f : Except ε β) = .error e := rfl

theorem lookupD_dictUpd_self {β : Type} (k : Fld) (v0 : β) (f : β → β)
    (l : List (Fld × β)) :
    lookupD k (dictUpd k v0 f l) = some (f ((lookupD k l).getD v0)) := by
  induction l with
  | nil => simp [dictUpd, lookupD]
  | cons e rest ih =>
    by_cases h : e.1 = k
    · simp [dictUpd, lookupD, h]
    · simp [dictUpd, lookupD, h, ih]

theorem lookupD_dictUpd_ne {β : Type} (k k2 : Fld) (hne : k ≠ k2) (v0 : β)
    (f : β → β) (l : List (Fld × β)) :
    lookupD k2 (dictUpd k v0 f l) = lookupD k2 l := by
  induction l with
  | nil => simp [dictUpd, lookupD, hne]
  | cons e rest ih =>
    by_cases h : e.1 = k
    · simp [dictUpd, lookupD, h, hne]
    · simp [dictUpd, lookupD, h, ih]

theorem dictUpd_forall {β : Type} (P : Fld × β → Prop) (k : Fld) (v0 : β)
    (f : β → β) (l : List (Fld × β)) (h0 : ∀ a b, P (a, f b))
    (hl : ∀ e ∈ l, P e) : ∀ e ∈ dictUpd k v0 f l, P e := by
  induction l with
  | nil => simpa [dictUpd] using h0 k v0
  | cons e rest ih =>
    intro x hx
    by_cases h : e.1 = k
    · simp [dictUpd, h] at hx
      rcases hx with hx | hx
      · subst hx; exact h0 k e.2
      · exact hl x (by simp [hx])
    · simp [dictUpd, h] at hx
      rcases hx with hx | hx
      · subst hx; exact hl x (by simp)
      · exact ih (fun y hy => hl y (by simp [hy])) x hx

theorem get1_of_len2 (r : Row) (h : 2 ≤ r.length) : r[1]? = some (deptOf r) := by
  match r with
  | [] => simp at h
  | [a] => simp at h
  | a :: b :: t => simp [deptOf]

theorem get2_of_len3 (r : Row) (h : 3 ≤ r.length) : r[2]? = some (teamOf r) := by
  match r with
  | [] => simp at h
  | [a] => simp at h
  | [a, b] => simp at h
  | a :: b :: c :: t => simp [teamOf]

theorem getLast?_of_ne_nil (r : Row) (h : r ≠ []) : r.getLast? = some (lastOf r) := by
  match r with
  | [] => exact absurd rfl h
  | a :: t => simp [lastOf, List.getLast?_eq_getLast (a :: t) (by simp)]

theorem good_sal (r : Row) (h : GoodStat r) : pyInt (lastOf r) = some (salOf r) := by
  rcases h with ⟨-, hp⟩
  rcases Option.isSome_iff_exists.mp hp with ⟨v, hv⟩
  simp [salOf, hv]

/-! ### Claim C6: read_csv header handling and field splitting -/

/-- C6: for every readable file, `read_csv` consumes the first physical
line as the header and yields it as the first element of the output
sequence exactly when the include-header flag is set; the remaining rows
are yielded in file order, each split on the delimiter.  (The pure model
returns the one and only pass over the file's lines.) -/
theorem readCsv_header_iff (c : Content) (l : List Char) (ls : List (List Char))
    (d : Char) (h : linesOf c = l :: ls) :
    readCsv (some c) true d = .ok (splitRow d l :: ls.map (splitRow d)) ∧
    readCsv (some c) false d = .ok (ls.map (splitRow d)) := by
  constructor <;> simp [readCsv, h]

theorem readCsv_header_iff_witness :
    linesOf "h1;h2\na;b\nc;d\n".toList =
      "h1;h2".toList :: ["a;b".toList, "c;d".toList] ∧
    (readCsv (some "h1;h2\na;b\nc;d\n".toList) true ';' =
        .ok (splitRow ';' "h1;h2".toList ::
          ["a;b".toList, "c;d".toList].map (splitRow ';')) ∧
      readCsv (some "h1;h2\na;b\nc;d\n".toList) false ';' =
        .ok (["a;b".toList, "c;d".toList].map (splitRow ';'))) :=
  ⟨by decide, readCsv_header_iff _ _ _ ';' (by decide)⟩

/-! ### Claim C10: a file with no lines at all raises instead of yielding
an empty row sequence -/

/-- C10: on a readable but completely empty file, the unconditional
`next(reader)` for the header raises (a generator `StopIteration`
surfacing as `RuntimeError`), so `read_csv` produces an error rather
than an empty row sequence, and `get_hierarchy` and `get_statistics`
fail on such a file instead of returning an empty mapping. -/
theorem emptyFile_raises (b : Bool) (d : Char) :
    readCsv (some ([] : Content)) b d = .error .stopIterationRuntime ∧
    getHierarchy (some ([] : Content)) = .error .stopIterationRuntime ∧
    getStatistics (some ([] : Content)) = .error .stopIterationRuntime :=
  ⟨rfl, rfl, rfl⟩

/-! ### Step lemmas: what one loop iteration does on good and bad rows -/

theorem statStep_good (s : StatsMap) (r : Row) (h : GoodStat r) :
    statStep s r = .ok (statUpdRow s r) := by
  obtain ⟨hl, hp⟩ := h
  obtain ⟨a, b, t, rfl⟩ : ∃ a b t, r = a :: b :: t := by
    match r, hl with
    | a :: b :: t, _ => exact ⟨a, b, t, rfl⟩
  have hlast := getLast?_of_ne_nil (a :: b :: t) (by simp)
  have hs : pyInt (lastOf (a :: b :: t)) = some (salOf (a :: b :: t)) :=
    good_sal _ ⟨hl, hp⟩
  simp [statStep, statUpdRow, hlast, hs]

theorem statStep_bad (s : StatsMap) (r : Row)
    (h : r.length < 2 ∨ pyInt (lastOf r) = none) :
    ∃ e, statStep s r = .error e ∧ IsMalformedRowError e := by
  match r with
  | [] => exact ⟨.indexError, rfl, Or.inl rfl⟩
  | [a] => exact ⟨.indexError, rfl, Or.inl rfl⟩
  | a :: b :: t =>
    rcases h with h2 | hp
    · simp at h2; omega
    · have hlast := getLast?_of_ne_nil (a :: b :: t) (by simp)
      exact ⟨.valueError, by simp [statStep, hlast, hp], Or.inr rfl⟩

theorem hierStep_good (h : HierMap) (r : Row) (hg : GoodHier r) :
    hierStep h r = .ok (hierUpdRow h r) := by
  match r, hg with
  | a :: b :: c :: t, _ => simp [hierStep, hierUpdRow, teamOf, deptOf]

theorem hierStep_bad (h : HierMap) (r : Row) (hb : r.length < 3) :
    ∃ e, hierStep h r = .error e ∧ IsMalformedRowError e := by
  match r with
  | [] => exact ⟨.indexError, rfl, Or.inl rfl⟩
  | [a] => exact ⟨.indexError, rfl, Or.inl rfl⟩
  | [a, b] => exact ⟨.indexError, rfl, Or.inl rfl⟩
  | a :: b :: c :: t => simp at hb; omega

/-! ### Full-scan lemmas over the row list -/

theorem foldlM_statStep_ok (rs : List Row) (hg : ∀ r ∈ rs, GoodStat r)
    (s : StatsMap) : rs.foldlM statStep s = .ok (rs.foldl statUpdRow s) := by
  induction rs generalizing s with
  | nil => rfl
  | cons r rest ih =>
    rw [List.foldlM_cons, statStep_good s r (hg r (by simp)), except_bind_ok,
      List.foldl_cons]
    exact ih (fun x hx => hg x (by simp [hx])) _

theorem foldlM_hierStep_ok (rs : List Row) (hg : ∀ r ∈ rs, GoodHier r)
    (h : HierMap) : rs.foldlM hierStep h = .ok (rs.foldl hierUpdRow h) := by
  induction rs generalizing h with
  | nil => rfl
  | cons r rest ih =>
    rw [List.foldlM_cons, hierStep_good h r (hg r (by simp)), except_bind_ok,
      List.foldl_cons]
    exact ih (fun x hx => hg x (by simp [hx])) _

theorem foldlM_statStep_err (rs : List Row) :
    ∀ s : StatsMap, (∃ r ∈ rs, r.length < 2 ∨ pyInt (lastOf r) = none) →
      ∃ e, rs.foldlM statStep s = .error e ∧ IsMalformedRowError e := by
  induction rs with
  | nil => intro s hbad; simp at hbad
  | cons r rest ih =>
    intro s hbad
    by_cases hr : r.length < 2 ∨ pyInt (lastOf r) = none
    · rcases statStep_bad s r hr with ⟨e, he, hm⟩
      exact ⟨e, by rw [List.foldlM_cons, he, except_bind_error], hm⟩
    · have h2 : 2 ≤ r.length := by
        by_contra hc
        exact hr (Or.inl (by omega))
      have hp : (pyInt (lastOf r)).isSome = true := by
        rcases hopt : pyInt (lastOf r) with _ | v
        · exact absurd (Or.inr hopt) hr
        · rfl
      rcases hbad with ⟨r2, hmem, hb⟩
      have hmem2 : r2 ∈ rest := by
        rcases List.mem_cons.mp hmem with rfl | hm2
        · exact absurd hb hr
        · exact hm2
      rw [List.foldlM_cons, statStep_good s r ⟨h2, hp⟩, except_bind_ok]
      exact ih _ ⟨r2, hmem2, hb⟩

theorem foldlM_hierStep_err (rs : List Row) :
    ∀ h : HierMap, (∃ r ∈ rs, r.length < 3) →
      ∃ e, rs.foldlM hierStep h = .error e ∧ IsMalformedRowError e := by
  induction rs with
  | nil => intro h hbad; simp at hbad
  | cons r rest ih =>
    intro h hbad
    by_cases hr : r.length < 3
    · rcases hierStep_bad h r hr with ⟨e, he, hm⟩
      exact ⟨e, by rw [List.foldlM_cons, he, except_bind_error], hm⟩
    · rcases hbad with ⟨r2, hmem, hb⟩
      have hmem2 : r2 ∈ rest := by
        rcases List.mem_cons.mp hmem with rfl | hm2
        · exact absurd hb hr
        · exact hm2
      rw [List.foldlM_cons, hierStep_good h r (Nat.le_of_not_lt hr), except_bind_ok]
      exact ih _ ⟨r2, hmem2, hb⟩

/-! ### Claim C4: malformed rows make get_statistics fail with a
MalformedRowError -/

/-- C4: for every input file containing some data row whose last field
cannot be parsed as an integer, or some data row with fewer than 2
fields, `get_statistics` fails — and the raised error is in the
MalformedRowError class (an `IndexError` or `ValueError`), never a
different error kind. -/
theorem getStatistics_malformed (c : Content) (rows : List Row)
    (h : readCsv (some c) false ';' = .ok rows)
    (hbad : ∃ r ∈ rows, r.length < 2 ∨ pyInt (lastOf r) = none) :
    ∃ e, getStatistics (some c) = .error e ∧ IsMalformedRowError e := by
  rcases foldlM_statStep_err rows [] hbad with ⟨e, he, hm⟩
  refine ⟨e, ?_, hm⟩
  rw [getStatistics, h, except_bind_ok, he]

theorem getStatistics_malformed_witness :
    readCsv (some "h\nAnn;D;T;xx\n".toList) false ';' =
      .ok [["Ann".toList, "D".toList, "T".toList, "xx".toList]] ∧
    (∃ r ∈ [["Ann".toList, "D".toList, "T".toList, "xx".toList]],
      r.length < 2 ∨ pyInt (lastOf r) = none) ∧
    ∃ e, getStatistics (some "h\nAnn;D;T;xx\n".toList) = .error e ∧
      IsMalformedRowError e :=
  ⟨by decide, by decide,
    getStatistics_malformed ("h\nAnn;D;T;xx\n".toList)
      [["Ann".toList, "D".toList, "T".toList, "xx".toList]]
      (by decide) (by decide)⟩

/-! ### Claim C5: get_hierarchy error behavior -/

/-- C5: for every input file containing some data row with fewer than 3
fields, `get_hierarchy` fails with an error in the MalformedRowError
class; on a missing input file it fails with exactly the same
FileAccessError (`FileNotFoundError`) as the Row Source `read_csv`. -/
theorem getHierarchy_errors (b : Bool) (d : Char) (c : Content)
    (rows : List Row) (h : readCsv (some c) false ';' = .ok rows)
    (hbad : ∃ r ∈ rows, r.length < 3) :
    getHierarchy none = .error .fileNotFound ∧
    readCsv none b d = .error .fileNotFound ∧
    getHierarchy none = readCsv none b d >>= (fun rows => rows.foldlM hierStep []) ∧
    ∃ e, getHierarchy (some c) = .error e ∧ IsMalformedRowError e := by
  refine ⟨rfl, rfl, rfl, ?_⟩
  rcases foldlM_hierStep_err rows [] hbad with ⟨e, he, hm⟩
  refine ⟨e, ?_, hm⟩
  rw [getHierarchy, h, except_bind_ok, he]

theorem getHierarchy_errors_witness :
    readCsv (some "h\nAnn;D\n".toList) false ';' =
      .ok [["Ann".toList, "D".toList]] ∧
    (∃ r ∈ [["Ann".toList, "D".toList]], r.length < 3) ∧
    (getHierarchy none = .error .fileNotFound ∧
      readCsv none true ';' = .error .fileNotFound ∧
      getHierarchy none =
        readCsv none true ';' >>= (fun rows => rows.foldlM hierStep []) ∧
      ∃ e, getHierarchy (some "h\nAnn;D\n".toList) = .error e ∧
        IsMalformedRowError e) :=
  ⟨by decide, by decide,
    getHierarchy_errors true ';' ("h\nAnn;D\n".toList)
      [["Ann".toList, "D".toList]] (by decide) (by decide)⟩

/-! ### The statistics invariant: what a full scan computes -/

/-- The reference record for department `d` after scanning `rs`. -/
def statSpec (d : Fld) (rs : List Row) : DeptStats :=
  { count := countD d rs
    sum_salary := (salsD d rs).sum
    min_salary := listMinW (salsD d rs)
    max_salary := listMaxW (salsD d rs) }

theorem listMinW_cons (a : Int) (l : List Int) :
    listMinW (a :: l) = min (a : WithTop Int) (listMinW l) := rfl

theorem listMaxW_cons (a : Int) (l : List Int) :
    listMaxW (a :: l) = max (a : WithBot Int) (listMaxW l) := rfl

theorem listMinW_append (l : List Int) (a : Int) :
    listMinW (l ++ [a]) = min (listMinW l) (a : WithTop Int) := by
  induction l with
  | nil =>
    show min ((a : WithTop Int)) ⊤ = min ⊤ ((a : WithTop Int))
    exact min_comm _ _
  | cons b l ih =>
    rw [List.cons_append, listMinW_cons, listMinW_cons, ih, min_assoc]

theorem listMaxW_append (l : List Int) (a : Int) :
    listMaxW (l ++ [a]) = max (listMaxW l) (a : WithBot Int) := by
  induction l with
  | nil =>
    show max ((a : WithBot Int)) ⊥ = max ⊥ ((a : WithBot Int))
    exact max_comm _ _
  | cons b l ih =>
    rw [List.cons_append, listMaxW_cons, listMaxW_cons, ih, max_assoc]

theorem countD_append_hit (d : Fld) (rs : List Row) (r : Row)
    (h : r[1]? = some d) : countD d (rs ++ [r]) = countD d rs + 1 := by
  simp [countD, List.filter_append, h]

theorem countD_append_miss (d : Fld) (rs : List Row) (r : Row)
    (h : ¬ r[1]? = some d) : countD d (rs ++ [r]) = countD d rs := by
  simp [countD, List.filter_append, h]

theorem salsD_append_hit (d : Fld) (rs : List Row) (r : Row) (v : Int)
    (h : r[1]? = some d) (hv : pyInt (lastOf r) = some v) :
    salsD d (rs ++ [r]) = salsD d rs ++ [v] := by
  simp [salsD, List.filterMap_append, h, hv]

theorem salsD_append_miss (d : Fld) (rs : List Row) (r : Row)
    (h : ¬ r[1]? = some d) : salsD d (rs ++ [r]) = salsD d rs := by
  simp [salsD, List.filterMap_append, h]

theorem countD_eq_zero_of_not_occurs (d : Fld) (rs : List Row)
    (h : ¬ Occurs d rs) : countD d rs = 0 := by
  simp only [Occurs, not_exists, not_and] at h
  simp only [countD, List.length_eq_zero, List.filter_eq_nil_iff]
  intro r hr
  simp [h r hr]

theorem salsD_eq_nil_of_not_occurs (d : Fld) (rs : List Row)
    (h : ¬ Occurs d rs) : salsD d rs = [] := by
  simp only [Occurs, not_exists, not_and] at h
  simp only [salsD, List.filterMap_eq_nil_iff]
  intro r hr
  simp [h r hr]

theorem occurs_append_self (d : Fld) (rs : List Row) (r : Row)
    (h : r[1]? = some d) : Occurs d (rs ++ [r]) :=
  ⟨r, by simp, h⟩

theorem occurs_append_iff (d : Fld) (rs : List Row) (r : Row)
    (h : ¬ r[1]? = some d) : Occurs d (rs ++ [r]) ↔ Occurs d rs := by
  simp only [Occurs, List.mem_append, List.mem_singleton]
  constructor
  · rintro ⟨x, hx | rfl, h1⟩
    · exact ⟨x, hx, h1⟩
    · exact absurd h1 h
  · rintro ⟨x, hx, h1⟩
    exact ⟨x, Or.inl hx, h1⟩

theorem foldl_statUpdRow_spec (rs : List Row) :
    (∀ r ∈ rs, GoodStat r) → ∀ d : Fld,
      lookupD d (rs.foldl statUpdRow []) =
        if Occurs d rs then some (statSpec d rs) else none := by
  induction rs using List.reverseRecOn with
  | nil =>
    intro _ d
    simp [Occurs, lookupD]
  | append_singleton rs r ih =>
    intro hg d
    have hgr : GoodStat r := hg r (by simp)
    have ihd := ih (fun x hx => hg x (by simp [hx]))
    have h1 : r[1]? = some (deptOf r) := get1_of_len2 r hgr.1
    have hv : pyInt (lastOf r) = some (salOf r) := good_sal r hgr
    rw [List.foldl_append, List.foldl_cons, List.foldl_nil]
    show lookupD d (dictUpd (deptOf r) statInit (statBump (salOf r))
      (rs.foldl statUpdRow [])) = _
    by_cases hd : deptOf r = d
    · subst hd
      rw [lookupD_dictUpd_self, ihd]
      rw [if_pos (occurs_append_self _ rs r h1)]
      by_cases hocc : Occurs (deptOf r) rs
      · rw [if_pos hocc]
        simp only [Option.getD_some]
        congr 1
        unfold statBump statSpec
        rw [countD_append_hit _ rs r h1, salsD_append_hit _ rs r _ h1 hv,
          listMinW_append, listMaxW_append, List.sum_append, List.sum_cons,
          List.sum_nil, add_zero]
      · rw [if_neg hocc]
        simp only [Option.getD_none]
        congr 1
        unfold statBump statInit statSpec
        rw [countD_append_hit _ rs r h1, salsD_append_hit _ rs r _ h1 hv,
          countD_eq_zero_of_not_occurs _ rs hocc,
          salsD_eq_nil_of_not_occurs _ rs hocc, List.nil_append,
          List.sum_cons, List.sum_nil, add_zero, zero_add]
        have hmn : listMinW [salOf r] = min ⊤ ((salOf r : Int) : WithTop Int) := by
          rw [listMinW_cons]
          show min _ ⊤ = min ⊤ _
          exact min_comm _ _
        have hmx : listMaxW [salOf r] = max ⊥ ((salOf r : Int) : WithBot Int) := by
          rw [listMaxW_cons]
          show max _ ⊥ = max ⊥ _
          exact max_comm _ _
        rw [hmn, hmx]
        simp
    · have hne : ¬ r[1]? = some d := by
        rw [h1]
        intro he
        exact hd (Option.some.inj he)
      rw [lookupD_dictUpd_ne _ _ hd, ihd]
      by_cases hocc : Occurs d rs
      · rw [if_pos hocc, if_pos ((occurs_append_iff d rs r hne).mpr hocc)]
        have hsame : statSpec d (rs ++ [r]) = statSpec d rs := by
          unfold statSpec
          rw [countD_append_miss _ rs r hne, salsD_append_miss _ rs r hne]
        rw [hsame]
      · rw [if_neg hocc,
          if_neg (fun hc => hocc ((occurs_append_iff d rs r hne).mp hc))]

theorem listMinW_attained (l : List Int) (h : l ≠ []) :
    ∃ mn : Int, listMinW l = (mn : WithTop Int) ∧ mn ∈ l ∧ ∀ x ∈ l, mn ≤ x := by
  induction l with
  | nil => exact absurd rfl h
  | cons a l ih =>
    cases l with
    | nil =>
      refine ⟨a, ?_, by simp, by simp⟩
      rw [listMinW_cons]
      show min _ ⊤ = _
      exact min_eq_left le_top
    | cons b l2 =>
      obtain ⟨mn, hmn, hmem, hbd⟩ := ih (by simp)
      refine ⟨min a mn, ?_, ?_, ?_⟩
      · rw [listMinW_cons, hmn, ← WithTop.coe_min]
      · rcases le_total a mn with hle | hle
        · simp [min_eq_left hle]
        · rw [min_eq_right hle]
          exact List.mem_cons_of_mem a hmem
      · intro x hx
        rcases List.mem_cons.mp hx with rfl | hx2
        · exact min_le_left _ _
        · exact le_trans (min_le_right _ _) (hbd x hx2)

theorem listMaxW_attained (l : List Int) (h : l ≠ []) :
    ∃ mx : Int, listMaxW l = (mx : WithBot Int) ∧ mx ∈ l ∧ ∀ x ∈ l, x ≤ mx := by
  induction l with
  | nil => exact absurd rfl h
  | cons a l ih =>
    cases l with
    | nil =>
      refine ⟨a, ?_, by simp, by simp⟩
      rw [listMaxW_cons]
      show max _ ⊥ = _
      exact max_eq_left bot_le
    | cons b l2 =>
      obtain ⟨mx, hmx, hmem, hbd⟩ := ih (by simp)
      refine ⟨max a mx, ?_, ?_, ?_⟩
      · rw [listMaxW_cons, hmx, ← WithBot.coe_max]
      · rcases le_total a mx with hle | hle
        · rw [max_eq_right hle]
          exact List.mem_cons_of_mem a hmem
        · simp [max_eq_left hle]
      · intro x hx
        rcases List.mem_cons.mp hx with rfl | hx2
        · exact le_max_left _ _
        · exact le_trans (hbd x hx2) (le_max_right _ _)

/-! ### Claim C1: get_statistics computes exact per-department statistics -/

/-- C1: for every input file whose data rows each have at least 2 fields
and an integer-parseable last field, `get_statistics` returns a mapping
in which, for each department `d` occurring in the file, the entry for
`d` has `count` equal to the number of data rows whose field index 1
equals `d`, `sum_salary` equal to the exact integer sum of those rows'
last-field salaries, and `min_salary` / `max_salary` equal to the true
minimum / maximum of those salaries. -/
theorem getStatistics_correct (c : Content) (rows : List Row)
    (h : readCsv (some c) false ';' = .ok rows)
    (hg : ∀ r ∈ rows, 2 ≤ r.length ∧ (pyInt (lastOf r)).isSome = true) :
    ∃ m, getStatistics (some c) = .ok m ∧
      ∀ d : Fld, (∃ r ∈ rows, r[1]? = some d) →
        ∃ s, lookupD d m = some s ∧
          s.count = countD d rows ∧
          s.sum_salary = (salsD d rows).sum ∧
          (∃ mn : Int, s.min_salary = (mn : WithTop Int) ∧ mn ∈ salsD d rows ∧
            ∀ x ∈ salsD d rows, mn ≤ x) ∧
          (∃ mx : Int, s.max_salary = (mx : WithBot Int) ∧ mx ∈ salsD d rows ∧
            ∀ x ∈ salsD d rows, x ≤ mx) := by
  refine ⟨rows.foldl statUpdRow [], ?_, ?_⟩
  · rw [getStatistics, h, except_bind_ok]
    exact foldlM_statStep_ok rows hg []
  · intro d hocc
    have hspec := foldl_statUpdRow_spec rows hg d
    rw [if_pos (show Occurs d rows from hocc)] at hspec
    have hne : salsD d rows ≠ [] := by
      rcases hocc with ⟨r, hr, h1⟩
      have hgr := hg r hr
      have : salOf r ∈ salsD d rows := by
        simp only [salsD, List.mem_filterMap]
        exact ⟨r, hr, by rw [if_pos h1, good_sal r hgr]⟩
      intro hnil
      rw [hnil] at this
      exact absurd this (List.not_mem_nil _)
    obtain ⟨mn, hmn, hmnm, hmnb⟩ := listMinW_attained _ hne
    obtain ⟨mx, hmx, hmxm, hmxb⟩ := listMaxW_attained _ hne
    exact ⟨statSpec d rows, hspec, rfl, rfl, ⟨mn, hmn, hmnm, hmnb⟩,
      ⟨mx, hmx, hmxm, hmxb⟩⟩

theorem getStatistics_correct_witness :
    readCsv (some "H\nn;Eng;Back;90000\nn;Eng;Front;70000\nn;Sales;Close;50000\n".toList)
        false ';' =
      .ok [["n".toList, "Eng".toList, "Back".toList, "90000".toList],
        ["n".toList, "Eng".toList, "Front".toList, "70000".toList],
        ["n".toList, "Sales".toList, "Close".toList, "50000".toList]] ∧
    (∀ r ∈ [["n".toList, "Eng".toList, "Back".toList, "90000".toList],
        ["n".toList, "Eng".toList, "Front".toList, "70000".toList],
        ["n".toList, "Sales".toList, "Close".toList, "50000".toList]],
      2 ≤ r.length ∧ (pyInt (lastOf r)).isSome = true) ∧
    ∃ m, getStatistics
        (some "H\nn;Eng;Back;90000\nn;Eng;Front;70000\nn;Sales;Close;50000\n".toList) =
        .ok m ∧
      ∀ d : Fld, (∃ r ∈ [["n".toList, "Eng".toList, "Back".toList, "90000".toList],
          ["n".toList, "Eng".toList, "Front".toList, "70000".toList],
          ["n".toList, "Sales".toList, "Close".toList, "50000".toList]],
            r[1]? = some d) →
        ∃ s, lookupD d m = some s ∧
          s.count = countD d [["n".toList, "Eng".toList, "Back".toList, "90000".toList],
            ["n".toList, "Eng".toList, "Front".toList, "70000".toList],
            ["n".toList, "Sales".toList, "Close".toList, "50000".toList]] ∧
          s.sum_salary = (salsD d [["n".toList, "Eng".toList, "Back".toList, "90000".toList],
            ["n".toList, "Eng".toList, "Front".toList, "70000".toList],
            ["n".toList, "Sales".toList, "Close".toList, "50000".toList]]).sum ∧
          (∃ mn : Int, s.min_salary = (mn : WithTop Int) ∧
            mn ∈ salsD d [["n".toList, "Eng".toList, "Back".toList, "90000".toList],
              ["n".toList, "Eng".toList, "Front".toList, "70000".toList],
              ["n".toList, "Sales".toList, "Close".toList, "50000".toList]] ∧
            ∀ x ∈ salsD d [["n".toList, "Eng".toList, "Back".toList, "90000".toList],
              ["n".toList, "Eng".toList, "Front".toList, "70000".toList],
              ["n".toList, "Sales".toList, "Close".toList, "50000".toList]], mn ≤ x) ∧
          (∃ mx : Int, s.max_salary = (mx : WithBot Int) ∧
            mx ∈ salsD d [["n".toList, "Eng".toList, "Back".toList, "90000".toList],
              ["n".toList, "Eng".toList, "Front".toList, "70000".toList],
              ["n".toList, "Sales".toList, "Close".toList, "50000".toList]] ∧
            ∀ x ∈ salsD d [["n".toList, "Eng".toList, "Back".toList, "90000".toList],
              ["n".toList, "Eng".toList, "Front".toList, "70000".toList],
              ["n".toList, "Sales".toList, "Close".toList, "50000".toList]], x ≤ mx) :=
  ⟨by decide, by decide,
    getStatistics_correct
      ("H\nn;Eng;Back;90000\nn;Eng;Front;70000\nn;Sales;Close;50000\n".toList)
      [["n".toList, "Eng".toList, "Back".toList, "90000".toList],
        ["n".toList, "Eng".toList, "Front".toList, "70000".toList],
        ["n".toList, "Sales".toList, "Close".toList, "50000".toList]]
      (by decide) (by decide)⟩

/-! ### Claim C9: entries of a get_statistics result always have a
positive count, so the average's division never divides by zero -/

theorem statStep_ok_shape (s : StatsMap) (r : Row) (s2 : StatsMap)
    (h : statStep s r = .ok s2) :
    ∃ sal, s2 = dictUpd (deptOf r) statInit (statBump sal) s := by
  unfold statStep at h
  split at h
  · exact absurd h (by simp)
  · split at h
    · exact absurd h (by simp)
    · split at h
      · exact absurd h (by simp)
      · injection h with h
        exact ⟨_, h.symm⟩

theorem foldlM_statStep_count_pos (rs : List Row) :
    ∀ s m : StatsMap, rs.foldlM statStep s = .ok m →
      (∀ e ∈ s, 1 ≤ e.2.count) → ∀ e ∈ m, 1 ≤ e.2.count := by
  induction rs with
  | nil =>
    intro s m h hs
    rw [List.foldlM_nil] at h
    injection h with h
    rw [← h]
    exact hs
  | cons r rest ih =>
    intro s m h hs
    rw [List.foldlM_cons] at h
    cases hstep : statStep s r with
    | error e =>
      rw [hstep, except_bind_error] at h
      cases h
    | ok s2 =>
      rw [hstep, except_bind_ok] at h
      obtain ⟨sal, rfl⟩ := statStep_ok_shape s r s2 hstep
      refine ih _ _ h (dictUpd_forall _ _ _ _ _ ?_ hs)
      intro a b
      show 1 ≤ (statBump sal b).count
      simp [statBump]

/-- C9: every mapping returned by `get_statistics` contains only entries
with `count ≥ 1` (a department key is created only when a row for it is
processed, and that row increments its count), so the rational divisor
`count` in the `sum_salary / count` average computed by
`print_statistics` and `save_statistics` is never zero on a result of
`get_statistics`. -/
theorem getStatistics_count_pos (file : Option Content) (m : StatsMap)
    (h : getStatistics file = .ok m) :
    ∀ e ∈ m, 1 ≤ e.2.count ∧ ((e.2.count : ℚ) ≠ 0) := by
  unfold getStatistics at h
  cases hr : readCsv file false ';' with
  | error e =>
    rw [hr, except_bind_error] at h
    cases h
  | ok rows =>
    rw [hr, except_bind_ok] at h
    intro e he
    have h1 := foldlM_statStep_count_pos rows [] m h (by simp) e he
    refine ⟨h1, ?_⟩
    have : e.2.count ≠ 0 := by omega
    exact_mod_cast this

theorem getStatistics_count_pos_witness :
    getStatistics (some "h\nx;D;T;5\n".toList) =
      .ok [("D".toList,
        { count := 1, sum_salary := 5, min_salary := (5 : Int),
          max_salary := (5 : Int) })] ∧
    ∀ e ∈ [(("D".toList : Fld),
        { count := 1, sum_salary := 5, min_salary := ((5 : Int) : WithTop Int),
          max_salary := ((5 : Int) : WithBot Int) : DeptStats })],
      1 ≤ e.2.count ∧ ((e.2.count : ℚ) ≠ 0) :=
  ⟨by decide,
    getStatistics_count_pos (some "h\nx;D;T;5\n".toList) _ (by decide)⟩

/-! ### The hierarchy invariant: what a full scan computes -/

theorem teamsOf_append_hit (d : Fld) (rs : List Row) (r : Row) (t : Fld)
    (h1 : r[1]? = some d) (h2 : r[2]? = some t) :
    teamsOf d (rs ++ [r]) = insert t (teamsOf d rs) := by
  simp only [teamsOf, List.filter_append, List.filterMap_append, h1, h2]
  ext x
  simp only [List.toFinset_append, Finset.mem_union, List.mem_toFinset,
    List.mem_filterMap, List.mem_filter, List.mem_singleton, decide_eq_true_eq,
    Finset.mem_insert]
  constructor
  · rintro (hr | ⟨a, ⟨rfl, -⟩, ha2⟩)
    · exact Or.inr hr
    · exact Or.inl (Option.some.inj (h2.symm.trans ha2)).symm
  · rintro (rfl | hr)
    · exact Or.inr ⟨r, ⟨rfl, h1⟩, h2⟩
    · exact Or.inl hr

theorem teamsOf_append_miss (d : Fld) (rs : List Row) (r : Row)
    (h1 : ¬ r[1]? = some d) : teamsOf d (rs ++ [r]) = teamsOf d rs := by
  simp [teamsOf, List.filter_append, h1]

theorem teamsOf_eq_empty_of_not_occurs (d : Fld) (rs : List Row)
    (h : ¬ Occurs d rs) : teamsOf d rs = ∅ := by
  simp only [Occurs, not_exists, not_and] at h
  have hf : rs.filter (fun r => r[1]? = some d) = [] := by
    simp only [List.filter_eq_nil_iff]
    intro r hr
    simp [h r hr]
  simp [teamsOf, hf]

theorem mem_teamsOf (d t : Fld) (rs : List Row) :
    t ∈ teamsOf d rs ↔ ∃ r ∈ rs, r[1]? = some d ∧ r[2]? = some t := by
  simp only [teamsOf, List.mem_toFinset, List.mem_filterMap, List.mem_filter,
    decide_eq_true_eq]
  constructor
  · rintro ⟨r, ⟨hr, hr1⟩, hr2⟩
    exact ⟨r, hr, hr1, hr2⟩
  · rintro ⟨r, hr, hr1, hr2⟩
    exact ⟨r, ⟨hr, hr1⟩, hr2⟩

theorem foldl_hierUpdRow_spec (rs : List Row) :
    (∀ r ∈ rs, GoodHier r) → ∀ d : Fld,
      lookupD d (rs.foldl hierUpdRow []) =
        if Occurs d rs then some (teamsOf d rs) else none := by
  induction rs using List.reverseRecOn with
  | nil =>
    intro _ d
    simp [Occurs, lookupD]
  | append_singleton rs r ih =>
    intro hg d
    have hgr : GoodHier r := hg r (by simp)
    have ihd := ih (fun x hx => hg x (by simp [hx]))
    have h1 : r[1]? = some (deptOf r) := get1_of_len2 r (le_trans (by omega) hgr)
    have h2 : r[2]? = some (teamOf r) := get2_of_len3 r hgr
    rw [List.foldl_append, List.foldl_cons, List.foldl_nil]
    show lookupD d (dictUpd (deptOf r) ∅ (insert (teamOf r))
      (rs.foldl hierUpdRow [])) = _
    by_cases hd : deptOf r = d
    · subst hd
      rw [lookupD_dictUpd_self, ihd, if_pos (occurs_append_self _ rs r h1)]
      by_cases hocc : Occurs (deptOf r) rs
      · rw [if_pos hocc]
        simp only [Option.getD_some]
        rw [teamsOf_append_hit _ rs r _ h1 h2]
      · rw [if_neg hocc]
        simp only [Option.getD_none]
        rw [teamsOf_append_hit _ rs r _ h1 h2,
          teamsOf_eq_empty_of_not_occurs _ rs hocc]
    · have hne : ¬ r[1]? = some d := fun he => hd (Option.some.inj (h1.symm.trans he))
      rw [lookupD_dictUpd_ne _ _ hd, ihd]
      by_cases hocc : Occurs d rs
      · rw [if_pos hocc, if_pos ((occurs_append_iff d rs r hne).mpr hocc),
          teamsOf_append_miss _ rs r hne]
      · rw [if_neg hocc,
          if_neg (fun hc => hocc ((occurs_append_iff d rs r hne).mp hc))]

theorem totalCard_dictUpd_le (h : HierMap) (k t : Fld) :
    totalCard (dictUpd k ∅ (insert t) h) ≤ totalCard h + 1 := by
  induction h with
  | nil => simp [dictUpd, totalCard]
  | cons e rest ih =>
    by_cases he : e.1 = k
    · simp only [dictUpd, if_pos he, totalCard, List.map_cons, List.sum_cons]
      have := Finset.card_insert_le t e.2
      omega
    · simp only [dictUpd, if_neg he, totalCard, List.map_cons, List.sum_cons]
      unfold totalCard at ih
      omega

theorem totalCard_foldl_le (rs : List Row) :
    ∀ h : HierMap, totalCard (rs.foldl hierUpdRow h) ≤ totalCard h + rs.length := by
  induction rs with
  | nil => intro h; simp
  | cons r rest ih =>
    intro h
    rw [List.foldl_cons]
    have hrec := ih (hierUpdRow h r)
    have hstep : totalCard (hierUpdRow h r) ≤ totalCard h + 1 :=
      totalCard_dictUpd_le h _ _
    simp only [List.length_cons]
    omega

/-! ### Claim C2: get_hierarchy groups the teams of each department -/

/-- C2: for every input file whose data rows each have at least 3 fields,
`get_hierarchy` returns a mapping whose keys are exactly the departments
(field index 1) occurring in the data rows, where each department maps
to the set of team names (field index 2) seen with it (duplicates
collapsed), so that the total team-membership count summed over
departments is at most the number of data rows. -/
theorem getHierarchy_correct (c : Content) (rows : List Row)
    (h : readCsv (some c) false ';' = .ok rows)
    (hg : ∀ r ∈ rows, 3 ≤ r.length) :
    ∃ hm, getHierarchy (some c) = .ok hm ∧
      (∀ d : Fld, (lookupD d hm).isSome = true ↔ ∃ r ∈ rows, r[1]? = some d) ∧
      (∀ d ts, lookupD d hm = some ts →
        ∀ t, t ∈ ts ↔ ∃ r ∈ rows, r[1]? = some d ∧ r[2]? = some t) ∧
      totalCard hm ≤ rows.length := by
  refine ⟨rows.foldl hierUpdRow [], ?_, ?_, ?_, ?_⟩
  · rw [getHierarchy, h, except_bind_ok]
    exact foldlM_hierStep_ok rows hg []
  · intro d
    rw [foldl_hierUpdRow_spec rows hg d]
    by_cases hocc : Occurs d rows
    · rw [if_pos hocc]
      exact iff_of_true rfl hocc
    · rw [if_neg hocc]
      exact iff_of_false (by simp) hocc
  · intro d ts hts
    rw [foldl_hierUpdRow_spec rows hg d] at hts
    by_cases hocc : Occurs d rows
    · rw [if_pos hocc] at hts
      injection hts with hts
      intro t
      rw [← hts]
      exact mem_teamsOf d t rows
    · rw [if_neg hocc] at hts
      cases hts
  · have hb := totalCard_foldl_le rows []
    simpa [totalCard] using hb

theorem getHierarchy_correct_witness :
    readCsv (some "H\nn;Eng;Back;1\nn;Eng;Back;2\nn;Sales;Close;3\n".toList)
        false ';' =
      .ok [["n".toList, "Eng".toList, "Back".toList, "1".toList],
        ["n".toList, "Eng".toList, "Back".toList, "2".toList],
        ["n".toList, "Sales".toList, "Close".toList, "3".toList]] ∧
    (∀ r ∈ [["n".toList, "Eng".toList, "Back".toList, "1".toList],
        ["n".toList, "Eng".toList, "Back".toList, "2".toList],
        ["n".toList, "Sales".toList, "Close".toList, "3".toList]],
      3 ≤ r.length) ∧
    ∃ hm, getHierarchy
        (some "H\nn;Eng;Back;1\nn;Eng;Back;2\nn;Sales;Close;3\n".toList) = .ok hm ∧
      (∀ d : Fld, (lookupD d hm).isSome = true ↔
        ∃ r ∈ [["n".toList, "Eng".toList, "Back".toList, "1".toList],
          ["n".toList, "Eng".toList, "Back".toList, "2".toList],
          ["n".toList, "Sales".toList, "Close".toList, "3".toList]],
          r[1]? = some d) ∧
      (∀ d ts, lookupD d hm = some ts →
        ∀ t, t ∈ ts ↔ ∃ r ∈ [["n".toList, "Eng".toList, "Back".toList, "1".toList],
          ["n".toList, "Eng".toList, "Back".toList, "2".toList],
          ["n".toList, "Sales".toList, "Close".toList, "3".toList]],
          r[1]? = some d ∧ r[2]? = some t) ∧
      totalCard hm ≤ ([["n".toList, "Eng".toList, "Back".toList, "1".toList],
        ["n".toList, "Eng".toList, "Back".toList, "2".toList],
        ["n".toList, "Sales".toList, "Close".toList, "3".toList]] : List Row).length :=
  ⟨by decide, by decide,
    getHierarchy_correct
      ("H\nn;Eng;Back;1\nn;Eng;Back;2\nn;Sales;Close;3\n".toList)
      [["n".toList, "Eng".toList, "Back".toList, "1".toList],
        ["n".toList, "Eng".toList, "Back".toList, "2".toList],
        ["n".toList, "Sales".toList, "Close".toList, "3".toList]]
      (by decide) (by decide)⟩

/-! ### The menu controller -/

/-- Session state of the `main` loop (`app.py` lines 135-162): the two
lazily-populated cache slots, counters of how many times each aggregator
was invoked in this process, and whether the loop was left through the
exit branch. -/
structure MenuState where
  statistics : Option StatsMap
  hierarchy : Option HierMap
  statScans : Nat
  hierScans : Nat
  exited : Bool
  deriving DecidableEq

/-- Python truthiness of the statistics cache slot as tested by
`if not statistics:` — `None` and the empty dict are both falsy. -/
def truthyStats : Option StatsMap → Bool
  | none => false
  | some m => !m.isEmpty

/-- Python truthiness of the hierarchy cache slot as tested by
`if not hierarchy:`. -/
def truthyHier : Option HierMap → Bool
  | none => false
  | some m => !m.isEmpty

/-- The state `main` starts from: both caches `None`, no scans yet. -/
def initMenuState : MenuState :=
  { statistics := none, hierarchy := none, statScans := 0, hierScans := 0,
    exited := false }

/-- Embedding of the `main` loop (`app.py` lines 135-162) run on a
scripted list of input lines: each iteration strips the input and
dispatches; choices 1/2/3 consult the cache slot first (via Python
truthiness) and invoke the aggregator only when it is falsy; any other
input leaves the loop.  Aggregator errors propagate and end the run; an
exhausted script ends the run with the loop still waiting.  The file
write of choice 3 is a side effect outside the session state. -/
def mainRun (file : Option Content) : List (List Char) → MenuState →
    Except PyErr MenuState
  | [], s => .ok s
  | inp :: rest, s =>
    if stripWs inp = ['1'] then
      if truthyHier s.hierarchy then mainRun file rest s
      else
        match getHierarchy file with
        | .error e => .error e
        | .ok h =>
          mainRun file rest
            { s with hierarchy := some h, hierScans := s.hierScans + 1 }
    else if stripWs inp = ['2'] then
      if truthyStats s.statistics then mainRun file rest s
      else
        match getStatistics file with
        | .error e => .error e
        | .ok m =>
          mainRun file rest
            { s with statistics := some m, statScans := s.statScans + 1 }
    else if stripWs inp = ['3'] then
      if truthyStats s.statistics then mainRun file rest s
      else
        match getStatistics file with
        | .error e => .error e
        | .ok m =>
          mainRun file rest
            { s with statistics := some m, statScans := s.statScans + 1 }
    else .ok { s with exited := true }

theorem mainRun_nil (file : Option Content) (s : MenuState) :
    mainRun file [] s = .ok s := rfl

theorem mainRun_exit (file : Option Content) (inp : List Char)
    (rest : List (List Char)) (s : MenuState) (h1 : ¬ stripWs inp = ['1'])
    (h2 : ¬ stripWs inp = ['2']) (h3 : ¬ stripWs inp = ['3']) :
    mainRun file (inp :: rest) s = .ok { s with exited := true } := by
  simp only [mainRun]
  rw [if_neg h1, if_neg h2, if_neg h3]

theorem mainRun_one_cached (file : Option Content) (inp : List Char)
    (rest : List (List Char)) (s : MenuState) (h1 : stripWs inp = ['1'])
    (ht : truthyHier s.hierarchy = true) :
    mainRun file (inp :: rest) s = mainRun file rest s := by
  simp only [mainRun]
  rw [if_pos h1, if_pos ht]

theorem mainRun_one_scan (file : Option Content) (inp : List Char)
    (rest : List (List Char)) (s : MenuState) (mh : HierMap)
    (h1 : stripWs inp = ['1']) (ht : truthyHier s.hierarchy = false)
    (hg : getHierarchy file = .ok mh) :
    mainRun file (inp :: rest) s =
      mainRun file rest
        { s with hierarchy := some mh, hierScans := s.hierScans + 1 } := by
  simp only [mainRun]
  rw [if_pos h1, if_neg (by simp [ht]), hg]

theorem mainRun_two_cached (file : Option Content) (inp : List Char)
    (rest : List (List Char)) (s : MenuState) (h1 : ¬ stripWs inp = ['1'])
    (h2 : stripWs inp = ['2']) (ht : truthyStats s.statistics = true) :
    mainRun file (inp :: rest) s = mainRun file rest s := by
  simp only [mainRun]
  rw [if_neg h1, if_pos h2, if_pos ht]

theorem mainRun_two_scan (file : Option Content) (inp : List Char)
    (rest : List (List Char)) (s : MenuState) (ms : StatsMap)
    (h1 : ¬ stripWs inp = ['1']) (h2 : stripWs inp = ['2'])
    (ht : truthyStats s.statistics = false)
    (hg : getStatistics file = .ok ms) :
    mainRun file (inp :: rest) s =
      mainRun file rest
        { s with statistics := some ms, statScans := s.statScans + 1 } := by
  simp only [mainRun]
  rw [if_neg h1, if_pos h2, if_neg (by simp [ht]), hg]

theorem mainRun_three_cached (file : Option Content) (inp : List Char)
    (rest : List (List Char)) (s : MenuState) (h1 : ¬ stripWs inp = ['1'])
    (h2 : ¬ stripWs inp = ['2']) (h3 : stripWs inp = ['3'])
    (ht : truthyStats s.statistics = true) :
    mainRun file (inp :: rest) s = mainRun file rest s := by
  simp only [mainRun]
  rw [if_neg h1, if_neg h2, if_pos h3, if_pos ht]

theorem mainRun_three_scan (file : Option Content) (inp : List Char)
    (rest : List (List Char)) (s : MenuState) (ms : StatsMap)
    (h1 : ¬ stripWs inp = ['1']) (h2 : ¬ stripWs inp = ['2'])
    (h3 : stripWs inp = ['3']) (ht : truthyStats s.statistics = false)
    (hg : getStatistics file = .ok ms) :
    mainRun file (inp :: rest) s =
      mainRun file rest
        { s with statistics := some ms, statScans := s.statScans + 1 } := by
  simp only [mainRun]
  rw [if_neg h1, if_neg h2, if_pos h3, if_neg (by simp [ht]), hg]

theorem truthyStats_some_of_ne (m : StatsMap) (h : m ≠ []) :
    truthyStats (some m) = true := by
  cases m with
  | nil => exact absurd rfl h
  | cons a l => rfl

theorem truthyHier_some_of_ne (m : HierMap) (h : m ≠ []) :
    truthyHier (some m) = true := by
  cases m with
  | nil => exact absurd rfl h
  | cons a l => rfl

/-- Invariant of the statistics cache slot when the aggregator's result
`ms` is non-empty: either untouched, or filled once. -/
def StatsInv (ms : StatsMap) (s : MenuState) : Prop :=
  (s.statistics = none ∧ s.statScans = 0) ∨
    (s.statistics = some ms ∧ s.statScans = 1)

/-- Invariant of the hierarchy cache slot, analogously. -/
def HierInv (mh : HierMap) (s : MenuState) : Prop :=
  (s.hierarchy = none ∧ s.hierScans = 0) ∨
    (s.hierarchy = some mh ∧ s.hierScans = 1)

theorem mainRun_scans_inv (file : Option Content) (ms : StatsMap)
    (mh : HierMap) (hs : getStatistics file = .ok ms) (hsne : ms ≠ [])
    (hh : getHierarchy file = .ok mh) (hhne : mh ≠ [])
    (inputs : List (List Char)) :
    ∀ s : MenuState, StatsInv ms s → HierInv mh s →
      ∀ s2, mainRun file inputs s = .ok s2 → StatsInv ms s2 ∧ HierInv mh s2 := by
  induction inputs with
  | nil =>
    intro s h1 h2 s2 h
    rw [mainRun_nil] at h
    injection h with h
    rw [← h]
    exact ⟨h1, h2⟩
  | cons inp rest ih =>
    intro s h1 h2 s2 h
    by_cases c1 : stripWs inp = ['1']
    · rcases h2 with ⟨hn, h0⟩ | ⟨hsome, h1s⟩
      · rw [mainRun_one_scan file inp rest s mh c1 (by rw [hn]; rfl) hh] at h
        exact ih { s with hierarchy := some mh, hierScans := s.hierScans + 1 }
          h1 (Or.inr ⟨rfl, by simp [h0]⟩) s2 h
      · rw [mainRun_one_cached file inp rest s c1
          (by rw [hsome]; exact truthyHier_some_of_ne mh hhne)] at h
        exact ih _ h1 (Or.inr ⟨hsome, h1s⟩) s2 h
    · by_cases c2 : stripWs inp = ['2']
      · rcases h1 with ⟨hn, h0⟩ | ⟨hsome, h1s⟩
        · rw [mainRun_two_scan file inp rest s ms c1 c2 (by rw [hn]; rfl) hs] at h
          exact ih { s with statistics := some ms, statScans := s.statScans + 1 }
            (Or.inr ⟨rfl, by simp [h0]⟩) h2 s2 h
        · rw [mainRun_two_cached file inp rest s c1 c2
            (by rw [hsome]; exact truthyStats_some_of_ne ms hsne)] at h
          exact ih _ (Or.inr ⟨hsome, h1s⟩) h2 s2 h
      · by_cases c3 : stripWs inp = ['3']
        · rcases h1 with ⟨hn, h0⟩ | ⟨hsome, h1s⟩
          · rw [mainRun_three_scan file inp rest s ms c1 c2 c3
              (by rw [hn]; rfl) hs] at h
            exact ih { s with statistics := some ms, statScans := s.statScans + 1 }
              (Or.inr ⟨rfl, by simp [h0]⟩) h2 s2 h
          · rw [mainRun_three_cached file inp rest s c1 c2 c3
              (by rw [hsome]; exact truthyStats_some_of_ne ms hsne)] at h
            exact ih _ (Or.inr ⟨hsome, h1s⟩) h2 s2 h
        · rw [mainRun_exit file inp rest s c1 c2 c3] at h
          injection h with h
          rw [← h]
          exact ⟨h1, h2⟩

/-! ### Claim C3 (corrected): memoization of the menu caches -/

/-- C3 counterexample: the claim fails as stated.  On a readable file
with a header line and no data rows, `get_statistics` returns the empty
mapping; the `if not statistics:` truthiness test treats it as an empty
cache, so the menu input sequence "2", "3", "x" invokes the statistics
aggregator twice (two full scans), not once. -/
theorem menu_memoization_cex :
    getStatistics (some "name;dept;team;salary\n".toList) = .ok [] ∧
    mainRun (some "name;dept;team;salary\n".toList)
        ["2".toList, "3".toList, "x".toList] initMenuState =
      .ok { statistics := some [], hierarchy := none, statScans := 2,
            hierScans := 0, exited := true } ∧
    ¬ (2 : Nat) = 1 :=
  ⟨by decide, by decide, by decide⟩

/-- C3 (amended): provided the input file yields a non-empty (truthy)
statistics mapping and a non-empty hierarchy mapping, each cache slot is
populated by its aggregator at most once per run, whatever the menu
inputs; and the input sequence "2", "3", then any non-menu input
performs exactly one statistics scan (the save step reuses the cached
statistics) and then terminates the loop. -/
theorem menu_memoization (file : Option Content) (ms : StatsMap)
    (mh : HierMap) (hs : getStatistics file = .ok ms) (hsne : ms ≠ [])
    (hh : getHierarchy file = .ok mh) (hhne : mh ≠ []) :
    (∀ (inputs : List (List Char)) (s2 : MenuState),
        mainRun file inputs initMenuState = .ok s2 →
        s2.statScans ≤ 1 ∧ s2.hierScans ≤ 1) ∧
    ∀ x : List Char, ¬ stripWs x = ['1'] → ¬ stripWs x = ['2'] →
      ¬ stripWs x = ['3'] →
      mainRun file ["2".toList, "3".toList, x] initMenuState =
        .ok { statistics := some ms, hierarchy := none, statScans := 1,
              hierScans := 0, exited := true } := by
  constructor
  · intro inputs s2 h
    rcases mainRun_scans_inv file ms mh hs hsne hh hhne inputs initMenuState
      (Or.inl ⟨rfl, rfl⟩) (Or.inl ⟨rfl, rfl⟩) s2 h with ⟨hi1, hi2⟩
    constructor
    · rcases hi1 with ⟨-, h0⟩ | ⟨-, h1⟩ <;> omega
    · rcases hi2 with ⟨-, h0⟩ | ⟨-, h1⟩ <;> omega
  · intro x hx1 hx2 hx3
    have d1 : ¬ stripWs "2".toList = ['1'] := by decide
    have d2 : stripWs "2".toList = ['2'] := by decide
    have d3 : ¬ stripWs "3".toList = ['1'] := by decide
    have d4 : ¬ stripWs "3".toList = ['2'] := by decide
    have d5 : stripWs "3".toList = ['3'] := by decide
    rw [mainRun_two_scan file _ _ initMenuState ms d1 d2 rfl hs,
      mainRun_three_cached file _ _ _ d3 d4 d5
        (truthyStats_some_of_ne ms hsne),
      mainRun_exit file x [] _ hx1 hx2 hx3]
    rfl

theorem menu_memoization_witness :
    getStatistics (some "h\nx;D;T;5\n".toList) =
      .ok [("D".toList,
        { count := 1, sum_salary := 5, min_salary := ((5 : Int) : WithTop Int),
          max_salary := ((5 : Int) : WithBot Int) })] ∧
    ([(("D".toList : Fld),
        { count := 1, sum_salary := 5, min_salary := ((5 : Int) : WithTop Int),
          max_salary := ((5 : Int) : WithBot Int) : DeptStats })] : StatsMap) ≠ [] ∧
    getHierarchy (some "h\nx;D;T;5\n".toList) =
      .ok [("D".toList, insert "T".toList (∅ : Finset Fld))] ∧
    ([(("D".toList : Fld), insert "T".toList (∅ : Finset Fld))] : HierMap) ≠ [] ∧
    ((∀ (inputs : List (List Char)) (s2 : MenuState),
        mainRun (some "h\nx;D;T;5\n".toList) inputs initMenuState = .ok s2 →
        s2.statScans ≤ 1 ∧ s2.hierScans ≤ 1) ∧
      ∀ x : List Char, ¬ stripWs x = ['1'] → ¬ stripWs x = ['2'] →
        ¬ stripWs x = ['3'] →
        mainRun (some "h\nx;D;T;5\n".toList) ["2".toList, "3".toList, x]
            initMenuState =
          .ok { statistics := some [(("D".toList : Fld),
                  { count := 1, sum_salary := 5,
                    min_salary := ((5 : Int) : WithTop Int),
                    max_salary := ((5 : Int) : WithBot Int) })],
                hierarchy := none, statScans := 1, hierScans := 0,
                exited := true }) :=
  ⟨by decide, by decide, rfl, by decide,
    menu_memoization (some "h\nx;D;T;5\n".toList) _ _ (by decide) (by decide)
      rfl (by decide)⟩

/-! ### Decimal numerals: Python str() of ints and of rounded floats -/

/-- Little-endian decimal digits of `n`, with enough fuel. -/
def natDigitsRev : Nat → Nat → List Nat
  | 0, _ => []
  | f + 1, n => if n = 0 then [] else n % 10 :: natDigitsRev f (n / 10)

/-- Big-endian decimal digits of `n` (a single 0 for `n = 0`). -/
def digitsOf (m : Nat) : List Nat :=
  if m = 0 then [0] else (natDigitsRev m m).reverse

/-- Python `str(n)` for a natural number. -/
def natRepr (n : Nat) : List Char := (digitsOf n).map digitChar

/-- Python `str(z)` for an integer. -/
def intRepr (z : Int) : List Char :=
  if z < 0 then '-' :: natRepr z.natAbs else natRepr z.natAbs

/-- Python `str` of a `min_salary` cell: an int prints as its numeral,
the untouched `float('inf')` sentinel prints as `inf`. -/
def strMin (x : WithTop Int) : List Char :=
  WithTop.recTopCoe "inf".toList intRepr x

/-- Python `str` of a `max_salary` cell. -/
def strMax (x : WithBot Int) : List Char :=
  WithBot.recBotCoe "-inf".toList intRepr x

/-- Value of a big-endian digit list. -/
def bigVal (ds : List Nat) : Nat := ds.foldl (fun a d => 10 * a + d) 0

/-- Value of a little-endian digit list. -/
def ofRevDigits : List Nat → Nat
  | [] => 0
  | d :: ds => d + 10 * ofRevDigits ds

/-- Big-endian digits of the fractional part `m / 10^p`, zero-padded on
the left to exactly `p` digits (a single 0 when `p = 0`, as Python's
`str(float)` always prints at least one fractional digit). -/
def fracDigits (p m : Nat) : List Nat :=
  if p = 0 then [0] else List.replicate (p - (digitsOf m).length) 0 ++ digitsOf m

/-- Characters of the fractional part. -/
def fracRepr (p m : Nat) : List Char := (fracDigits p m).map digitChar

/-- Decimal rendering of the value `k / 10^p` (the result of Python's
`round(x, p)`), as `str` prints it: optional minus sign, integer part,
dot, fractional digits.  The model always prints the full `p` fractional
digits where Python trims trailing zeros (but at least one); the two
renderings denote the same value. -/
def floatRepr (k : Int) (p : Nat) : List Char :=
  (if k < 0 then ['-'] else []) ++
    natRepr (k.natAbs / 10 ^ p) ++ '.' :: fracRepr p (k.natAbs % 10 ^ p)

/-- A plain nonempty run of decimal digits, with its value. -/
def pyDigitsPlain (l : List Char) : Option Nat :=
  match l with
  | [] => none
  | _ =>
    l.foldl (fun acc c => acc.bind (fun a => (charDigit? c).map (fun d => 10 * a + d)))
      (some 0)

/-- Unsigned decimal with an optional single dot, as accepted by Python
`float(...)` on the strings this program writes. -/
def parseUDec (l : List Char) : Option ℚ :=
  match splitFields '.' l with
  | [ip] => (pyDigitsPlain ip).map (fun a => (a : ℚ))
  | [ip, fp] =>
    match pyDigitsPlain ip, pyDigitsPlain fp with
    | some a, some b => some ((a : ℚ) + (b : ℚ) / (10 : ℚ) ^ fp.length)
    | _, _ => none
  | _ => none

/-- Python `float(s)` on the decimal strings this development re-parses:
strip whitespace, optional sign, then an unsigned decimal. -/
def pyFloat (l : List Char) : Option ℚ :=
  match stripWs l with
  | [] => none
  | c :: rest =>
    if c = '+' then parseUDec rest
    else if c = '-' then (parseUDec rest).map (fun q => -q)
    else parseUDec (c :: rest)

/-- Round to the nearest integer, ties to the even integer — the rounding
of Python's `round` (banker's rounding), idealized over exact rationals. -/
def roundHalfEven (q : ℚ) : Int :=
  if Int.fract q < 1 / 2 then ⌊q⌋
  else if 1 / 2 < Int.fract q then ⌊q⌋ + 1
  else if Even ⌊q⌋ then ⌊q⌋ else ⌊q⌋ + 1

/-- Python `round(x, p)` for a non-negative precision `p`, returning the
numerator over `10^p`. -/
def pyRound (q : ℚ) (p : Nat) : Int := roundHalfEven (q * 10 ^ p)

/-- The average `sum_salary / count` as computed (in float) by
`print_statistics` and `save_statistics`, idealized over ℚ. -/
def avgQ (s : DeptStats) : ℚ := (s.sum_salary : ℚ) / (s.count : ℚ)

example : natRepr 90210 = "90210".toList := by decide
example : intRepr (-47) = "-47".toList := by decide
example : floatRepr (-305) 2 = "-3.05".toList := by decide
example : floatRepr 80000 0 = "80000.0".toList := by decide
example : pyDigitsPlain "047".toList = some 47 := by decide
example : pyFloat "-3.05".toList = some q → q = -(3 + 5 / 100) := by
  intro h
  cases h
  rfl

/-! ### Correctness of the numeral layer -/

theorem charDigit?_digitChar (d : Nat) (h : d < 10) :
    charDigit? (digitChar d) = some d := by
  interval_cases d <;> decide

theorem digitChar_props (d : Nat) (h : d < 10) :
    isSpaceCh (digitChar d) = false ∧ digitChar d ≠ '+' ∧ digitChar d ≠ '-' ∧
    digitChar d ≠ ';' ∧ digitChar d ≠ '\n' ∧ digitChar d ≠ '.' ∧
    digitChar d ≠ '_' := by
  interval_cases d <;>
    exact ⟨rfl, by decide, by decide, by decide, by decide, by decide, by decide⟩

theorem goDigits_step (acc : Nat) (c : Char) (cs : List Char) (d : Nat)
    (hne : c ≠ '_') (hc : charDigit? c = some d) :
    goDigits acc (c :: cs) = goDigits (10 * acc + d) cs := by
  rw [goDigits.eq_def]
  split <;> simp_all

theorem natDigitsRev_lt (fuel : Nat) : ∀ n, ∀ d ∈ natDigitsRev fuel n, d < 10 := by
  induction fuel with
  | zero => intro n d hd; simp [natDigitsRev] at hd
  | succ f ih =>
    intro n d hd
    by_cases h0 : n = 0
    · simp [natDigitsRev, h0] at hd
    · simp only [natDigitsRev, if_neg h0, List.mem_cons] at hd
      rcases hd with rfl | hd
      · exact Nat.mod_lt _ (by omega)
      · exact ih _ d hd

theorem digitsOf_lt (m : Nat) : ∀ d ∈ digitsOf m, d < 10 := by
  intro d hd
  unfold digitsOf at hd
  by_cases h0 : m = 0
  · simp [h0] at hd
    omega
  · rw [if_neg h0, List.mem_reverse] at hd
    exact natDigitsRev_lt m m d hd

theorem digitsOf_ne_nil (m : Nat) : digitsOf m ≠ [] := by
  unfold digitsOf
  by_cases h0 : m = 0
  · simp [h0]
  · rw [if_neg h0]
    simp only [ne_eq, List.reverse_eq_nil_iff]
    match m, h0 with
    | k + 1, _ =>
      simp [natDigitsRev]

theorem natDigitsRev_val (fuel : Nat) :
    ∀ n ≤ fuel, ofRevDigits (natDigitsRev fuel n) = n := by
  induction fuel with
  | zero =>
    intro n h
    interval_cases n
    rfl
  | succ f ih =>
    intro n h
    by_cases h0 : n = 0
    · simp [natDigitsRev, h0, ofRevDigits]
    · rw [natDigitsRev, if_neg h0]
      show n % 10 + 10 * ofRevDigits (natDigitsRev f (n / 10)) = n
      rw [ih (n / 10) (by omega)]
      exact Nat.mod_add_div n 10

theorem bigVal_aux (l : List Nat) :
    ∀ acc : Nat, (l.reverse).foldl (fun a d => 10 * a + d) acc =
      acc * 10 ^ l.length + ofRevDigits l := by
  induction l with
  | nil => intro acc; simp [ofRevDigits]
  | cons d ds ih =>
    intro acc
    rw [List.reverse_cons, List.foldl_append, ih acc]
    show 10 * (acc * 10 ^ ds.length + ofRevDigits ds) + d = _
    rw [List.length_cons]
    show _ = acc * 10 ^ (ds.length + 1) + (d + 10 * ofRevDigits ds)
    ring

theorem bigVal_digitsOf (m : Nat) : bigVal (digitsOf m) = m := by
  unfold bigVal digitsOf
  by_cases h0 : m = 0
  · simp [h0]
  · rw [if_neg h0, bigVal_aux, natDigitsRev_val m m (le_refl m)]
    simp

theorem goDigits_map (ds : List Nat) (h : ∀ d ∈ ds, d < 10) :
    ∀ acc, goDigits acc (ds.map digitChar) =
      some (ds.foldl (fun a d => 10 * a + d) acc) := by
  induction ds with
  | nil => intro acc; rfl
  | cons d ds ih =>
    intro acc
    have hd : d < 10 := h d (by simp)
    rw [List.map_cons,
      goDigits_step acc _ _ d (digitChar_props d hd).2.2.2.2.2.2
        (charDigit?_digitChar d hd),
      List.foldl_cons]
    exact ih (fun x hx => h x (by simp [hx])) (10 * acc + d)

theorem pyDigitsU_map (ds : List Nat) (h : ∀ d ∈ ds, d < 10) (hne : ds ≠ []) :
    pyDigitsU (ds.map digitChar) = some (bigVal ds) := by
  cases ds with
  | nil => exact absurd rfl hne
  | cons d ds =>
    rw [List.map_cons, pyDigitsU, charDigit?_digitChar d (h d (by simp))]
    show goDigits d (ds.map digitChar) = some (bigVal (d :: ds))
    rw [goDigits_map ds (fun x hx => h x (by simp [hx])) d]
    unfold bigVal
    rw [List.foldl_cons]
    norm_num

theorem pyDigitsU_natRepr (n : Nat) : pyDigitsU (natRepr n) = some n := by
  rw [natRepr, pyDigitsU_map (digitsOf n) (digitsOf_lt n) (digitsOf_ne_nil n),
    bigVal_digitsOf]

theorem dropWhile_eq_self_of (p : Char → Bool) (l : List Char)
    (h : ∀ c ∈ l, p c = false) : l.dropWhile p = l := by
  cases l with
  | nil => rfl
  | cons c cs =>
    rw [List.dropWhile_cons, h c (by simp)]
    simp

theorem stripWs_eq_self (l : List Char) (h : ∀ c ∈ l, isSpaceCh c = false) :
    stripWs l = l := by
  unfold stripWs
  rw [dropWhile_eq_self_of _ _ h,
    dropWhile_eq_self_of _ _ (fun c hc => h c (List.mem_reverse.mp hc)),
    List.reverse_reverse]

theorem natRepr_digit (n : Nat) : ∀ c ∈ natRepr n, ∃ d, d < 10 ∧ c = digitChar d := by
  intro c hc
  rw [natRepr, List.mem_map] at hc
  rcases hc with ⟨d, hd, rfl⟩
  exact ⟨d, digitsOf_lt n d hd, rfl⟩

theorem natRepr_not_space (n : Nat) : ∀ c ∈ natRepr n, isSpaceCh c = false := by
  intro c hc
  rcases natRepr_digit n c hc with ⟨d, hd, rfl⟩
  exact (digitChar_props d hd).1

theorem natRepr_ne_nil (n : Nat) : natRepr n ≠ [] := by
  rw [natRepr]
  simp only [ne_eq, List.map_eq_nil_iff]
  exact digitsOf_ne_nil n

theorem pyInt_natRepr (n : Nat) : pyInt (natRepr n) = some (n : Int) := by
  obtain ⟨c, cs, hcons⟩ : ∃ c cs, natRepr n = c :: cs := by
    cases h : natRepr n with
    | nil => exact absurd h (natRepr_ne_nil n)
    | cons c cs => exact ⟨c, cs, rfl⟩
  obtain ⟨d, hd, hcd⟩ := natRepr_digit n c (by rw [hcons]; simp)
  have h1 : stripWs (natRepr n) = c :: cs := by
    rw [stripWs_eq_self (natRepr n) (natRepr_not_space n), hcons]
  have h2 : ¬ c = '+' := hcd ▸ (digitChar_props d hd).2.1
  have h3 : ¬ c = '-' := hcd ▸ (digitChar_props d hd).2.2.1
  simp only [pyInt, h1, if_neg h2, if_neg h3]
  rw [← hcons, pyDigitsU_natRepr]
  rfl

theorem intRepr_not_space (z : Int) : ∀ c ∈ intRepr z, isSpaceCh c = false := by
  intro c hc
  rw [intRepr] at hc
  by_cases h0 : z < 0
  · rw [if_pos h0] at hc
    rcases List.mem_cons.mp hc with rfl | hc
    · rfl
    · exact natRepr_not_space _ c hc
  · rw [if_neg h0] at hc
    exact natRepr_not_space _ c hc

theorem pyInt_intRepr (z : Int) : pyInt (intRepr z) = some z := by
  by_cases h0 : z < 0
  · have h1 : stripWs ('-' :: natRepr z.natAbs) = '-' :: natRepr z.natAbs := by
      apply stripWs_eq_self
      intro c hc
      rcases List.mem_cons.mp hc with rfl | hc
      · rfl
      · exact natRepr_not_space _ c hc
    rw [intRepr, if_pos h0]
    simp only [pyInt, h1, if_neg (by decide : ¬ ('-' : Char) = '+'), if_pos rfl]
    rw [pyDigitsU_natRepr]
    show some (-(z.natAbs : Int)) = some z
    congr 1
    omega
  · rw [intRepr, if_neg h0, pyInt_natRepr]
    congr 1
    omega

/-! ### Splitting undoes joining (for delimiter-free fields) -/

theorem consSplit_ne_nil (d c : Char) (r : List (List Char)) :
    consSplit d c r ≠ [] := by
  cases r with
  | nil => simp [consSplit]
  | cons f rest =>
    rw [consSplit]
    split <;> simp

theorem splitFields_ne_nil (d : Char) (l : List Char) : splitFields d l ≠ [] := by
  cases l with
  | nil => simp [splitFields]
  | cons c cs => exact consSplit_ne_nil d c _

theorem splitFields_single (d : Char) (l : List Char) (h : d ∉ l) :
    splitFields d l = [l] := by
  induction l with
  | nil => rfl
  | cons c cs ih =>
    have hc : ¬ c = d := fun hcd => h (by simp [hcd])
    have hcs : d ∉ cs := fun hm => h (by simp [hm])
    rw [splitFields, ih hcs, consSplit, if_neg hc]

theorem splitFields_append (d : Char) (xs zs : List Char) (h : d ∉ xs) :
    splitFields d (xs ++ d :: zs) = xs :: splitFields d zs := by
  induction xs with
  | nil =>
    rw [List.nil_append, splitFields]
    cases hsp : splitFields d zs with
    | nil => exact absurd hsp (splitFields_ne_nil d zs)
    | cons f rest => rw [consSplit, if_pos rfl, ← hsp]
  | cons c cs ih =>
    have hc : ¬ c = d := fun hcd => h (by simp [hcd])
    have hcs : d ∉ cs := fun hm => h (by simp [hm])
    rw [List.cons_append, splitFields, ih hcs, consSplit, if_neg hc]

theorem joinFields_cons_ne (d : Char) (xs : List Char) (ys : List (List Char))
    (h : ys ≠ []) : joinFields d (xs :: ys) = xs ++ d :: joinFields d ys := by
  cases ys with
  | nil => exact absurd rfl h
  | cons g rest => rfl

theorem joinFields_two_ne_nil (d : Char) (f g : List Char)
    (rest : List (List Char)) : joinFields d (f :: g :: rest) ≠ [] := by
  rw [joinFields]
  simp

theorem splitFields_joinFields (d : Char) (parts : List (List Char))
    (hne : parts ≠ []) (h : ∀ part ∈ parts, d ∉ part) :
    splitFields d (joinFields d parts) = parts := by
  induction parts with
  | nil => exact absurd rfl hne
  | cons p rest ih =>
    cases rest with
    | nil => exact splitFields_single d p (h p (by simp))
    | cons q rest2 =>
      rw [joinFields_cons_ne d p (q :: rest2) (by simp),
        splitFields_append d p _ (h p (by simp)),
        ih (by simp) (fun x hx => h x (by simp [hx]))]

theorem mem_joinFields (d : Char) (parts : List (List Char)) (c : Char)
    (hc : c ∈ joinFields d parts) : c = d ∨ ∃ p ∈ parts, c ∈ p := by
  induction parts with
  | nil => simp [joinFields] at hc
  | cons p rest ih =>
    cases rest with
    | nil =>
      rw [joinFields] at hc
      exact Or.inr ⟨p, by simp, hc⟩
    | cons q rest2 =>
      rw [joinFields_cons_ne d p (q :: rest2) (by simp), List.mem_append,
        List.mem_cons] at hc
      rcases hc with hc | hc | hc
      · exact Or.inr ⟨p, by simp, hc⟩
      · exact Or.inl hc
      · rcases ih hc with hd | ⟨x, hx, hcx⟩
        · exact Or.inl hd
        · exact Or.inr ⟨x, by simp [hx], hcx⟩

theorem splitRow_joinFields (d : Char) (f g : List Char)
    (rest : List (List Char)) (h : ∀ x ∈ f :: g :: rest, d ∉ x) :
    splitRow d (joinFields d (f :: g :: rest)) = f :: g :: rest := by
  rw [splitRow, if_neg (joinFields_two_ne_nil d f g rest),
    splitFields_joinFields d _ (by simp) h]

/-! ### Lines written with trailing newlines read back as the same lines -/

theorem join_map_newline (lines : List (List Char)) :
    (lines.map (fun l => l ++ ['\n'])).flatten = joinFields '\n' (lines ++ [[]]) := by
  induction lines with
  | nil => rfl
  | cons l ls ih =>
    rw [List.map_cons, List.flatten_cons, ih, List.cons_append,
      joinFields_cons_ne '\n' l (ls ++ [[]]) (by simp)]
    simp

theorem linesOf_writeLines (lines : List (List Char))
    (h : ∀ l ∈ lines, ('\n' : Char) ∉ l) :
    linesOf ((lines.map (fun l => l ++ ['\n'])).flatten) = lines := by
  rw [join_map_newline]
  have hsplit : splitFields '\n' (joinFields '\n' (lines ++ [[]])) = lines ++ [[]] := by
    apply splitFields_joinFields _ _ (by simp)
    intro part hp
    rcases List.mem_append.mp hp with hp | hp
    · exact h part hp
    · rw [List.mem_singleton] at hp
      rw [hp]
      simp
  rw [linesOf, hsplit, List.getLast?_concat, if_pos rfl, List.dropLast_concat]

/-! ### Value and character facts for the decimal float rendering -/

theorem natDigitsRev_len_le (fuel : Nat) :
    ∀ n p, n < 10 ^ p → (natDigitsRev fuel n).length ≤ p := by
  induction fuel with
  | zero => intro n p h; simp [natDigitsRev]
  | succ f ih =>
    intro n p h
    by_cases h0 : n = 0
    · simp [natDigitsRev, h0]
    · rw [natDigitsRev, if_neg h0]
      cases p with
      | zero =>
        simp at h
        omega
      | succ q =>
        have hq : n / 10 < 10 ^ q := by
          rw [Nat.div_lt_iff_lt_mul (by omega)]
          calc n < 10 ^ (q + 1) := h
            _ = 10 ^ q * 10 := by rw [pow_succ]
        have := ih (n / 10) q hq
        simp only [List.length_cons]
        omega

theorem digitsOf_len_le (m p : Nat) (h : m < 10 ^ p) (hp : 1 ≤ p) :
    (digitsOf m).length ≤ p := by
  unfold digitsOf
  by_cases h0 : m = 0
  · simp [h0]
    omega
  · rw [if_neg h0, List.length_reverse]
    exact natDigitsRev_len_le m m p h

theorem fracDigits_lt (p m : Nat) : ∀ d ∈ fracDigits p m, d < 10 := by
  intro d hd
  unfold fracDigits at hd
  by_cases h0 : p = 0
  · rw [if_pos h0] at hd
    simp at hd
    omega
  · rw [if_neg h0, List.mem_append] at hd
    rcases hd with hd | hd
    · rw [List.eq_of_mem_replicate hd]
      omega
    · exact digitsOf_lt m d hd

theorem fracDigits_ne_nil (p m : Nat) : fracDigits p m ≠ [] := by
  unfold fracDigits
  by_cases h0 : p = 0
  · simp [h0]
  · rw [if_neg h0]
    intro hnil
    exact digitsOf_ne_nil m (List.append_eq_nil.mp hnil).2

theorem fracDigits_len (p m : Nat) (h : m < 10 ^ p) (hp : 1 ≤ p) :
    (fracDigits p m).length = p := by
  unfold fracDigits
  rw [if_neg (by omega)]
  rw [List.length_append, List.length_replicate]
  have := digitsOf_len_le m p h hp
  omega

theorem bigVal_replicate_zero (k : Nat) (ds : List Nat) :
    bigVal (List.replicate k 0 ++ ds) = bigVal ds := by
  induction k with
  | zero => rfl
  | succ j ih =>
    unfold bigVal at ih ⊢
    rw [List.replicate_succ, List.cons_append, List.foldl_cons]
    simpa using ih

theorem bigVal_fracDigits (p m : Nat) (h : m < 10 ^ p) :
    bigVal (fracDigits p m) = m := by
  unfold fracDigits
  by_cases h0 : p = 0
  · rw [if_pos h0]
    subst h0
    simp at h
    subst h
    rfl
  · rw [if_neg h0, bigVal_replicate_zero, bigVal_digitsOf]

theorem pyDigitsPlain_aux (ds : List Nat) (h : ∀ d ∈ ds, d < 10) :
    ∀ a : Nat, (ds.map digitChar).foldl
      (fun acc c => acc.bind (fun x => (charDigit? c).map (fun d2 => 10 * x + d2)))
      (some a) = some (ds.foldl (fun x d2 => 10 * x + d2) a) := by
  induction ds with
  | nil => intro a; rfl
  | cons d ds ih =>
    intro a
    rw [List.map_cons, List.foldl_cons, List.foldl_cons]
    have hc : charDigit? (digitChar d) = some d :=
      charDigit?_digitChar d (h d (by simp))
    rw [show ((some a).bind fun x => (charDigit? (digitChar d)).map
        fun d2 => 10 * x + d2) = (charDigit? (digitChar d)).map
        fun d2 => 10 * a + d2 from rfl, hc]
    exact ih (fun x hx => h x (by simp [hx])) (10 * a + d)

theorem pyDigitsPlain_map (ds : List Nat) (h : ∀ d ∈ ds, d < 10)
    (hne : ds ≠ []) : pyDigitsPlain (ds.map digitChar) = some (bigVal ds) := by
  cases ds with
  | nil => exact absurd rfl hne
  | cons d ds =>
    show (List.map digitChar (d :: ds)).foldl _ (some 0) = some (bigVal (d :: ds))
    rw [pyDigitsPlain_aux (d :: ds) h 0]
    rfl

theorem natRepr_len_pos (n : Nat) : natRepr n ≠ [] := natRepr_ne_nil n

theorem dot_not_mem_natRepr (n : Nat) : ('.' : Char) ∉ natRepr n := by
  intro hc
  rcases natRepr_digit n '.' hc with ⟨d, hd, hEq⟩
  exact (digitChar_props d hd).2.2.2.2.2.1 hEq.symm

theorem semicolon_not_mem_natRepr (n : Nat) : (';' : Char) ∉ natRepr n := by
  intro hc
  rcases natRepr_digit n ';' hc with ⟨d, hd, hEq⟩
  exact (digitChar_props d hd).2.2.2.1 hEq.symm

theorem newline_not_mem_natRepr (n : Nat) : ('\n' : Char) ∉ natRepr n := by
  intro hc
  rcases natRepr_digit n '\n' hc with ⟨d, hd, hEq⟩
  exact (digitChar_props d hd).2.2.2.2.1 hEq.symm

theorem mem_fracRepr (p m : Nat) (c : Char) (hc : c ∈ fracRepr p m) :
    ∃ d, d < 10 ∧ c = digitChar d := by
  rw [fracRepr, List.mem_map] at hc
  rcases hc with ⟨d, hd, rfl⟩
  exact ⟨d, fracDigits_lt p m d hd, rfl⟩

theorem dot_not_mem_fracRepr (p m : Nat) : ('.' : Char) ∉ fracRepr p m := by
  intro hc
  rcases mem_fracRepr p m '.' hc with ⟨d, hd, hEq⟩
  exact (digitChar_props d hd).2.2.2.2.2.1 hEq.symm

theorem mem_floatRepr (k : Int) (p : Nat) (c : Char) (hc : c ∈ floatRepr k p) :
    c = '-' ∨ c = '.' ∨ ∃ d, d < 10 ∧ c = digitChar d := by
  rw [floatRepr, List.mem_append, List.mem_append] at hc
  rcases hc with (hc | hc) | hc
  · left
    by_cases h0 : k < 0
    · rw [if_pos h0, List.mem_singleton] at hc
      exact hc
    · rw [if_neg h0] at hc
      simp at hc
  · right
    right
    exact natRepr_digit _ c hc
  · rcases List.mem_cons.mp hc with rfl | hc
    · right
      left
      rfl
    · right
      right
      exact mem_fracRepr _ _ c hc

theorem semicolon_not_mem_floatRepr (k : Int) (p : Nat) :
    (';' : Char) ∉ floatRepr k p := by
  intro hc
  rcases mem_floatRepr k p ';' hc with hc | hc | ⟨d, hd, hEq⟩
  · cases hc
  · cases hc
  · exact (digitChar_props d hd).2.2.2.1 hEq.symm

theorem newline_not_mem_floatRepr (k : Int) (p : Nat) :
    ('\n' : Char) ∉ floatRepr k p := by
  intro hc
  rcases mem_floatRepr k p '\n' hc with hc | hc | ⟨d, hd, hEq⟩
  · cases hc
  · cases hc
  · exact (digitChar_props d hd).2.2.2.2.1 hEq.symm

theorem semicolon_not_mem_intRepr (z : Int) : (';' : Char) ∉ intRepr z := by
  intro hc
  rw [intRepr] at hc
  by_cases h0 : z < 0
  · rw [if_pos h0] at hc
    rcases List.mem_cons.mp hc with hc | hc
    · cases hc
    · exact semicolon_not_mem_natRepr _ hc
  · rw [if_neg h0] at hc
    exact semicolon_not_mem_natRepr _ hc

theorem newline_not_mem_intRepr (z : Int) : ('\n' : Char) ∉ intRepr z := by
  intro hc
  rw [intRepr] at hc
  by_cases h0 : z < 0
  · rw [if_pos h0] at hc
    rcases List.mem_cons.mp hc with hc | hc
    · cases hc
    · exact newline_not_mem_natRepr _ hc
  · rw [if_neg h0] at hc
    exact newline_not_mem_natRepr _ hc

/-! ### Re-parsing the decimal rendering recovers the value -/

theorem parseUDec_parts (n p : Nat) :
    parseUDec (natRepr (n / 10 ^ p) ++ '.' :: fracRepr p (n % 10 ^ p)) =
      some ((n : ℚ) / 10 ^ p) := by
  have hsplit : splitFields '.'
      (natRepr (n / 10 ^ p) ++ '.' :: fracRepr p (n % 10 ^ p)) =
      [natRepr (n / 10 ^ p), fracRepr p (n % 10 ^ p)] := by
    rw [splitFields_append '.' _ _ (dot_not_mem_natRepr _),
      splitFields_single '.' _ (dot_not_mem_fracRepr _ _)]
  have h1 : pyDigitsPlain (natRepr (n / 10 ^ p)) = some (n / 10 ^ p) := by
    rw [natRepr, pyDigitsPlain_map _ (digitsOf_lt _) (digitsOf_ne_nil _),
      bigVal_digitsOf]
  have hm : n % 10 ^ p < 10 ^ p := Nat.mod_lt _ (by positivity)
  have h2 : pyDigitsPlain (fracRepr p (n % 10 ^ p)) = some (n % 10 ^ p) := by
    rw [fracRepr, pyDigitsPlain_map _ (fracDigits_lt _ _) (fracDigits_ne_nil _ _),
      bigVal_fracDigits _ _ hm]
  simp only [parseUDec, hsplit, h1, h2]
  congr 1
  by_cases hp : p = 0
  · subst hp
    simp [fracRepr, fracDigits]
    omega
  · have hlen : (fracRepr p (n % 10 ^ p)).length = p := by
      rw [fracRepr, List.length_map, fracDigits_len p _ hm (by omega)]
    rw [hlen]
    have hqr : 10 ^ p * (n / 10 ^ p) + n % 10 ^ p = n := Nat.div_add_mod n (10 ^ p)
    have hc : ((10 : ℚ) ^ p) * ((n / 10 ^ p : Nat) : ℚ) + ((n % 10 ^ p : Nat) : ℚ) =
        (n : ℚ) := by
      exact_mod_cast congrArg (fun x : Nat => (x : ℚ)) hqr
    field_simp
    linarith [hc]

theorem floatRepr_not_space (k : Int) (p : Nat) :
    ∀ c ∈ floatRepr k p, isSpaceCh c = false := by
  intro c hc
  rcases mem_floatRepr k p c hc with rfl | rfl | ⟨d, hd, rfl⟩
  · rfl
  · rfl
  · exact (digitChar_props d hd).1

theorem pyFloat_floatRepr (k : Int) (p : Nat) :
    pyFloat (floatRepr k p) = some ((k : ℚ) / 10 ^ p) := by
  by_cases h0 : k < 0
  · have hbody : floatRepr k p =
        '-' :: (natRepr (k.natAbs / 10 ^ p) ++ '.' :: fracRepr p (k.natAbs % 10 ^ p)) := by
      rw [floatRepr, if_pos h0]
      rfl
    have hns : stripWs (floatRepr k p) = floatRepr k p :=
      stripWs_eq_self _ (floatRepr_not_space k p)
    rw [hbody] at hns
    simp only [pyFloat, hbody, hns, if_neg (show ¬ ('-' : Char) = '+' by decide),
      if_pos rfl]
    rw [parseUDec_parts]
    show some (-(((k.natAbs : Nat) : ℚ) / 10 ^ p)) = some ((k : ℚ) / 10 ^ p)
    congr 1
    have habs : ((k.natAbs : Nat) : ℚ) = -(k : ℚ) := by
      rw [Int.cast_natAbs, abs_of_neg h0]
      push_cast
      ring
    rw [habs]
    ring
  · have hbody : floatRepr k p =
        natRepr (k.natAbs / 10 ^ p) ++ '.' :: fracRepr p (k.natAbs % 10 ^ p) := by
      rw [floatRepr, if_neg h0]
      rfl
    obtain ⟨c, cs, hcons⟩ : ∃ c cs, natRepr (k.natAbs / 10 ^ p) = c :: cs := by
      cases h : natRepr (k.natAbs / 10 ^ p) with
      | nil => exact absurd h (natRepr_ne_nil _)
      | cons c cs => exact ⟨c, cs, rfl⟩
    obtain ⟨d, hd, hcd⟩ := natRepr_digit _ c (by rw [hcons]; simp)
    have hns : stripWs (floatRepr k p) = floatRepr k p :=
      stripWs_eq_self _ (floatRepr_not_space k p)
    have hshape : floatRepr k p =
        c :: (cs ++ '.' :: fracRepr p (k.natAbs % 10 ^ p)) := by
      rw [hbody, hcons, List.cons_append]
    rw [hshape] at hns
    simp only [pyFloat, hshape, hns, if_neg (hcd ▸ (digitChar_props d hd).2.1),
      if_neg (hcd ▸ (digitChar_props d hd).2.2.1)]
    rw [← List.cons_append, ← hcons, parseUDec_parts]
    congr 1
    have habs : ((k.natAbs : Nat) : ℚ) = (k : ℚ) := by
      rw [Int.cast_natAbs, abs_of_nonneg (not_lt.mp h0)]
    rw [habs]

/-! ### The rounding error of round-half-even -/

theorem roundHalfEven_abs (q : ℚ) : |((roundHalfEven q : Int) : ℚ) - q| ≤ 1 / 2 := by
  have h0 : (0 : ℚ) ≤ Int.fract q := Int.fract_nonneg q
  have h1 : Int.fract q < 1 := Int.fract_lt_one q
  have hfq : ((⌊q⌋ : Int) : ℚ) = q - Int.fract q := by
    rw [Int.fract]
    ring
  unfold roundHalfEven
  split_ifs with hlt hgt heven
  · rw [hfq, show q - Int.fract q - q = -Int.fract q by ring, abs_neg,
      abs_of_nonneg h0]
    linarith
  · push_cast
    rw [hfq, show q - Int.fract q + 1 - q = 1 - Int.fract q by ring,
      abs_of_nonneg (by linarith)]
    have : 1 / 2 < Int.fract q := hgt
    linarith
  · have heq : Int.fract q = 1 / 2 := le_antisymm (not_lt.mp hgt) (not_lt.mp hlt)
    rw [hfq, show q - Int.fract q - q = -Int.fract q by ring, abs_neg,
      abs_of_nonneg h0, heq]
  · have heq : Int.fract q = 1 / 2 := le_antisymm (not_lt.mp hgt) (not_lt.mp hlt)
    push_cast
    rw [hfq, show q - Int.fract q + 1 - q = 1 - Int.fract q by ring,
      abs_of_nonneg (by linarith), heq]
    norm_num

theorem pyRound_close (q : ℚ) (p : Nat) :
    |((pyRound q p : Int) : ℚ) / 10 ^ p - q| ≤ 1 / (2 * 10 ^ p) := by
  have h10 : (0 : ℚ) < 10 ^ p := by positivity
  have h := roundHalfEven_abs (q * 10 ^ p)
  have heq : ((pyRound q p : Int) : ℚ) / 10 ^ p - q =
      (((roundHalfEven (q * 10 ^ p) : Int) : ℚ) - q * 10 ^ p) / 10 ^ p := by
    rw [pyRound]
    field_simp
    ring
  rw [heq, abs_div, abs_of_pos h10,
    div_le_div_iff₀ h10 (by positivity : (0 : ℚ) < 2 * 10 ^ p)]
  nlinarith [h, h10]

/-! ### The report writer: save_statistics and print_statistics -/

/-- The fixed five-column header row written by `save_statistics`
(`app.py` lines 106-109). -/
def saveHeader : List Fld :=
  ["Департамент".toList, "Численность".toList, "Минимальная зарплата".toList,
    "Максимальная зарплата".toList, "Средняя зарплата".toList]

/-- The five fields written for one department (`app.py` lines 113-119):
department, count, min, max, and the average rounded to the given
precision, each rendered through Python `str`. -/
def saveRowOf (p : Nat) (e : Fld × DeptStats) : Row :=
  [e.1, natRepr e.2.count, strMin e.2.min_salary, strMax e.2.max_salary,
    floatRepr (pyRound (avgQ e.2) p) p]

/-- The data rows `save_statistics` writes, in mapping order. -/
def saveStatRows (stats : StatsMap) (p : Nat) : List Row :=
  stats.map (saveRowOf p)

/-- The lines `save_statistics` writes: the header line when the flag is
set, then one delimiter-joined line per department. -/
def saveLines (stats : StatsMap) (delim : Char) (sh : Bool) (p : Nat) :
    List (List Char) :=
  (if sh then [joinFields delim saveHeader] else []) ++
    (saveStatRows stats p).map (joinFields delim)

/-- The full file content written by `save_statistics` (`app.py` lines
104-121): every line followed by a newline. -/
def saveContent (stats : StatsMap) (delim : Char) (sh : Bool) (p : Nat) :
    Content :=
  ((saveLines stats delim sh p).map (fun l => l ++ ['\n'])).flatten

/-- Python `f-string` fixed formatting `{x:.2f}`: always exactly two
decimal places, rounding half to even. -/
def formatFixed2 (q : ℚ) : List Char := floatRepr (pyRound q 2) 2

/-- The average line printed for one department (`app.py` line 93). -/
def printAvgLine (e : Fld × DeptStats) : List Char :=
  '\t' :: "Средняя зарплата: ".toList ++ formatFixed2 (avgQ e.2) ++
    " рублей".toList

/-- The console lines `print_statistics` writes (`app.py` lines 79-94). -/
def printStatLines (stats : StatsMap) : List (List Char) :=
  [[], "Сводный отчет по департаментам:".toList, []] ++
    (stats.map (fun e =>
      [e.1,
        '\t' :: "Численность: ".toList ++ natRepr e.2.count ++ " человек".toList,
        '\t' :: "Вилка зарплат: ".toList ++ strMin e.2.min_salary ++
          " - ".toList ++ strMax e.2.max_salary ++ " рублей".toList,
        printAvgLine e])).flatten ++ [[]]

theorem strMin_coe (m : Int) : strMin ((m : Int) : WithTop Int) = intRepr m := rfl

theorem strMax_coe (m : Int) : strMax ((m : Int) : WithBot Int) = intRepr m := rfl

/-- A Statistics mapping built from per-department integer data, the
domain of the spec's data model (integer min/max, natural count). -/
def mkStats (l : List (Fld × Nat × Int × Int × Int)) : StatsMap :=
  l.map (fun e => (e.1,
    { count := e.2.1, sum_salary := e.2.2.1,
      min_salary := ((e.2.2.2.1 : Int) : WithTop Int),
      max_salary := ((e.2.2.2.2 : Int) : WithBot Int) }))

/-! ### Claim C7 (corrected): save then read recovers the statistics -/

theorem saveRow_fields_free (p : Nat) (dept : Fld) (cnt : Nat) (sum mn mx : Int)
    (h1 : (';' : Char) ∉ dept) (h2 : ('\n' : Char) ∉ dept) :
    ∀ f ∈ saveRowOf p (dept,
      { count := cnt, sum_salary := sum,
        min_salary := ((mn : Int) : WithTop Int),
        max_salary := ((mx : Int) : WithBot Int) }),
      (';' : Char) ∉ f ∧ ('\n' : Char) ∉ f := by
  intro f hf
  simp only [saveRowOf, List.mem_cons, List.not_mem_nil, or_false] at hf
  rcases hf with rfl | rfl | rfl | rfl | rfl
  · exact ⟨h1, h2⟩
  · exact ⟨semicolon_not_mem_natRepr _, newline_not_mem_natRepr _⟩
  · rw [strMin_coe]
    exact ⟨semicolon_not_mem_intRepr _, newline_not_mem_intRepr _⟩
  · rw [strMax_coe]
    exact ⟨semicolon_not_mem_intRepr _, newline_not_mem_intRepr _⟩
  · exact ⟨semicolon_not_mem_floatRepr _ _, newline_not_mem_floatRepr _ _⟩

theorem newline_not_mem_joined_row (row : Row)
    (h : ∀ f ∈ row, ('\n' : Char) ∉ f) :
    ('\n' : Char) ∉ joinFields ';' row := by
  intro hc
  rcases mem_joinFields ';' row '\n' hc with hd | ⟨f, hf, hcf⟩
  · cases hd
  · exact h f hf hcf

/-- C7 (amended): for every non-empty Statistics mapping over the spec's
data model (count ≥ 1, integer min/max) whose department names contain
no delimiter character and no newline character, `save_statistics`
followed by a `read_csv` read of the written file (header excluded) and
field re-parsing recovers each department name, and each department's
count, min_salary and max_salary exactly, and its average within the
rounding precision used when saving (within half an ulp of `10^-p`). -/
theorem save_read_roundtrip (l : List (Fld × Nat × Int × Int × Int)) (p : Nat)
    (hcnt : ∀ e ∈ l, 1 ≤ e.2.1)
    (hdept : ∀ e ∈ l, (';' : Char) ∉ e.1 ∧ ('\n' : Char) ∉ e.1) :
    ∃ rows, readCsv (some (saveContent (mkStats l) ';' true p)) false ';' =
        .ok rows ∧
      List.Forall₂ (fun (row : Row) (e : Fld × Nat × Int × Int × Int) =>
        ∃ cS mS MS aS, row = [e.1, cS, mS, MS, aS] ∧
          pyInt cS = some (e.2.1 : Int) ∧
          pyInt mS = some e.2.2.2.1 ∧
          pyInt MS = some e.2.2.2.2 ∧
          ∃ a : ℚ, pyFloat aS = some a ∧
            |a - (e.2.2.1 : ℚ) / (e.2.1 : ℚ)| ≤ 1 / (2 * 10 ^ p)) rows l := by
  have hfields : ∀ e ∈ l, ∀ f ∈ saveRowOf p (e.1,
      { count := e.2.1, sum_salary := e.2.2.1,
        min_salary := ((e.2.2.2.1 : Int) : WithTop Int),
        max_salary := ((e.2.2.2.2 : Int) : WithBot Int) }),
      (';' : Char) ∉ f ∧ ('\n' : Char) ∉ f :=
    fun e he => saveRow_fields_free p e.1 e.2.1 e.2.2.1 e.2.2.2.1 e.2.2.2.2
      (hdept e he).1 (hdept e he).2
  have hlinesFree : ∀ line ∈ saveLines (mkStats l) ';' true p,
      ('\n' : Char) ∉ line := by
    intro line hl
    simp only [saveLines, if_pos, List.mem_append, List.mem_singleton,
      saveStatRows, mkStats, List.map_map, List.mem_map] at hl
    rcases hl with hl | ⟨e, he, rfl⟩
    · rw [hl]
      decide
    · exact newline_not_mem_joined_row _ (fun f hf => (hfields e he f hf).2)
  have hlines2 : linesOf (saveContent (mkStats l) ';' true p) =
      joinFields ';' saveHeader ::
        (saveStatRows (mkStats l) p).map (joinFields ';') := by
    rw [saveContent, linesOf_writeLines _ hlinesFree]
    simp [saveLines]
  refine ⟨(saveStatRows (mkStats l) p).map
    (fun row => splitRow ';' (joinFields ';' row)), ?_, ?_⟩
  · simp only [readCsv, hlines2]
    simp [List.map_map]
  · have hrows : (saveStatRows (mkStats l) p).map
        (fun row => splitRow ';' (joinFields ';' row)) =
        l.map (fun e => saveRowOf p (e.1,
          { count := e.2.1, sum_salary := e.2.2.1,
            min_salary := ((e.2.2.2.1 : Int) : WithTop Int),
            max_salary := ((e.2.2.2.2 : Int) : WithBot Int) })) := by
      simp only [saveStatRows, mkStats, List.map_map]
      apply List.map_congr_left
      intro e he
      exact splitRow_joinFields ';' _ _ _
        (fun f hf => (hfields e he f hf).1)
    rw [hrows, List.forall₂_map_left_iff]
    apply List.forall₂_same.mpr
    intro e he
    refine ⟨natRepr e.2.1, intRepr e.2.2.2.1, intRepr e.2.2.2.2,
      floatRepr (pyRound (avgQ
        { count := e.2.1, sum_salary := e.2.2.1,
          min_salary := ((e.2.2.2.1 : Int) : WithTop Int),
          max_salary := ((e.2.2.2.2 : Int) : WithBot Int) }) p) p,
      rfl, ?_, ?_, ?_, ?_⟩
    · rw [pyInt_natRepr]
    · rw [pyInt_intRepr]
    · rw [pyInt_intRepr]
    · exact ⟨_, pyFloat_floatRepr _ p, pyRound_close _ p⟩

theorem save_read_roundtrip_witness :
    (∀ e ∈ [(("Dept".toList : Fld), (2 : Nat), (9 : Int), (4 : Int), (5 : Int))],
      1 ≤ e.2.1) ∧
    (∀ e ∈ [(("Dept".toList : Fld), (2 : Nat), (9 : Int), (4 : Int), (5 : Int))],
      (';' : Char) ∉ e.1 ∧ ('\n' : Char) ∉ e.1) ∧
    ∃ rows, readCsv (some (saveContent
        (mkStats [(("Dept".toList : Fld), (2 : Nat), (9 : Int), (4 : Int), (5 : Int))])
        ';' true 2)) false ';' = .ok rows ∧
      List.Forall₂ (fun (row : Row) (e : Fld × Nat × Int × Int × Int) =>
        ∃ cS mS MS aS, row = [e.1, cS, mS, MS, aS] ∧
          pyInt cS = some (e.2.1 : Int) ∧
          pyInt mS = some e.2.2.2.1 ∧
          pyInt MS = some e.2.2.2.2 ∧
          ∃ a : ℚ, pyFloat aS = some a ∧
            |a - (e.2.2.1 : ℚ) / (e.2.1 : ℚ)| ≤ 1 / (2 * 10 ^ 2)) rows
        [(("Dept".toList : Fld), (2 : Nat), (9 : Int), (4 : Int), (5 : Int))] :=
  ⟨by decide, by decide,
    save_read_roundtrip
      [(("Dept".toList : Fld), (2 : Nat), (9 : Int), (4 : Int), (5 : Int))] 2
      (by decide) (by decide)⟩

set_option maxRecDepth 100000 in
/-- C7 counterexample: the claim as stated (department names only need to
avoid the delimiter) is false.  A department name containing a newline
satisfies that hypothesis, yet the written line breaks into two physical
lines: reading the file back yields two rows, neither carrying the
department's data, so nothing is recovered for the single department. -/
theorem save_read_roundtrip_cex :
    (∀ e ∈ [(("A\nB".toList : Fld), (1 : Nat), (1 : Int), (1 : Int), (1 : Int))],
      1 ≤ e.2.1 ∧ (';' : Char) ∉ e.1) ∧
    readCsv (some (saveContent
        (mkStats [(("A\nB".toList : Fld), (1 : Nat), (1 : Int), (1 : Int), (1 : Int))])
        ';' true 2)) false ';' =
      .ok [["A".toList],
        ["B".toList, "1".toList, "1".toList, "1".toList, "1.00".toList]] ∧
    ¬ List.Forall₂ (fun (row : Row) (e : Fld × Nat × Int × Int × Int) =>
        ∃ cS mS MS aS, row = [e.1, cS, mS, MS, aS] ∧
          pyInt cS = some (e.2.1 : Int) ∧
          pyInt mS = some e.2.2.2.1 ∧
          pyInt MS = some e.2.2.2.2 ∧
          ∃ a : ℚ, pyFloat aS = some a ∧
            |a - (e.2.2.1 : ℚ) / (e.2.1 : ℚ)| ≤ 1 / (2 * 10 ^ 2))
      [["A".toList],
        ["B".toList, "1".toList, "1".toList, "1".toList, "1.00".toList]]
      [(("A\nB".toList : Fld), (1 : Nat), (1 : Int), (1 : Int), (1 : Int))] := by
  refine ⟨by decide, ?_, ?_⟩
  · with_unfolding_all rfl
  · intro hf
    have := hf.length_eq
    simp at this

/-! ### Claim C8: rounding only affects the persisted average; the
console average always has exactly two decimal places -/

theorem saveStatRows_take4 (stats : StatsMap) (r1 r2 : Nat) :
    (saveStatRows stats r1).map (List.take 4) =
      (saveStatRows stats r2).map (List.take 4) := by
  simp only [saveStatRows, List.map_map]
  rfl

theorem fracRepr_two (m : Nat) (h : m < 10 ^ 2) :
    ∃ d1 d2, fracRepr 2 m = [digitChar d1, digitChar d2] ∧ d1 < 10 ∧ d2 < 10 := by
  have hlen : (fracDigits 2 m).length = 2 := fracDigits_len 2 m h (by omega)
  cases hs : fracDigits 2 m with
  | nil => rw [hs] at hlen; simp at hlen
  | cons a t =>
    cases t with
    | nil => rw [hs] at hlen; simp at hlen
    | cons b t2 =>
      cases t2 with
      | nil =>
        refine ⟨a, b, ?_, ?_, ?_⟩
        · rw [fracRepr, hs]
          rfl
        · exact fracDigits_lt 2 m a (by rw [hs]; simp)
        · exact fracDigits_lt 2 m b (by rw [hs]; simp)
      | cons c t3 => rw [hs] at hlen; simp at hlen

theorem formatFixed2_shape (q : ℚ) :
    ∃ pre d1 d2, formatFixed2 q = pre ++ ['.', d1, d2] ∧
      ('.' : Char) ∉ pre ∧ (charDigit? d1).isSome = true ∧
      (charDigit? d2).isSome = true := by
  have hm : (pyRound q 2).natAbs % 10 ^ 2 < 10 ^ 2 := Nat.mod_lt _ (by norm_num)
  obtain ⟨d1, d2, hfr, h1, h2⟩ := fracRepr_two _ hm
  refine ⟨(if pyRound q 2 < 0 then ['-'] else []) ++
    natRepr ((pyRound q 2).natAbs / 10 ^ 2), digitChar d1, digitChar d2, ?_, ?_, ?_, ?_⟩
  · rw [formatFixed2, floatRepr, hfr, List.append_assoc]
  · intro hc
    rcases List.mem_append.mp hc with hc | hc
    · by_cases h0 : pyRound q 2 < 0
      · rw [if_pos h0, List.mem_singleton] at hc
        cases hc
      · rw [if_neg h0] at hc
        simp at hc
    · exact dot_not_mem_natRepr _ hc
  · rw [charDigit?_digitChar d1 h1]
    rfl
  · rw [charDigit?_digitChar d2 h2]
    rfl

/-- C8: for every Statistics mapping and every rounding precision passed
to `save_statistics`, the rounding parameter affects only the persisted
average value — the first four fields of every saved data row are
identical for any two precisions — while the console average printed by
`print_statistics` (which takes no rounding parameter) is always the
fixed two-decimal rendering: its line embeds `formatFixed2`, whose
output ends in a dot followed by exactly two digits. -/
theorem printed_avg_two_decimals (stats : StatsMap) (r1 r2 : Nat)
    (e : Fld × DeptStats) (he : e ∈ stats) :
    (saveStatRows stats r1).map (List.take 4) =
      (saveStatRows stats r2).map (List.take 4) ∧
    printAvgLine e ∈ printStatLines stats ∧
    printAvgLine e = '\t' :: "Средняя зарплата: ".toList ++
      formatFixed2 (avgQ e.2) ++ " рублей".toList ∧
    ∃ pre d1 d2, formatFixed2 (avgQ e.2) = pre ++ ['.', d1, d2] ∧
      ('.' : Char) ∉ pre ∧ (charDigit? d1).isSome = true ∧
      (charDigit? d2).isSome = true := by
  refine ⟨saveStatRows_take4 stats r1 r2, ?_, rfl, formatFixed2_shape _⟩
  rw [printStatLines]
  rw [List.mem_append]
  left
  rw [List.mem_append]
  right
  rw [List.mem_flatten]
  refine ⟨[e.1,
    '\t' :: "Численность: ".toList ++ natRepr e.2.count ++ " человек".toList,
    '\t' :: "Вилка зарплат: ".toList ++ strMin e.2.min_salary ++
      " - ".toList ++ strMax e.2.max_salary ++ " рублей".toList,
    printAvgLine e], List.mem_map_of_mem _ he, by simp⟩

theorem printed_avg_two_decimals_witness :
    (("D".toList : Fld),
      { count := 1, sum_salary := 5, min_salary := ((5 : Int) : WithTop Int),
        max_salary := ((5 : Int) : WithBot Int) : DeptStats }) ∈
      [(("D".toList : Fld),
        { count := 1, sum_salary := 5, min_salary := ((5 : Int) : WithTop Int),
          max_salary := ((5 : Int) : WithBot Int) : DeptStats })] ∧
    ((saveStatRows [(("D".toList : Fld),
        { count := 1, sum_salary := 5, min_salary := ((5 : Int) : WithTop Int),
          max_salary := ((5 : Int) : WithBot Int) : DeptStats })] 0).map (List.take 4) =
      (saveStatRows [(("D".toList : Fld),
        { count := 1, sum_salary := 5, min_salary := ((5 : Int) : WithTop Int),
          max_salary := ((5 : Int) : WithBot Int) : DeptStats })] 7).map (List.take 4) ∧
    printAvgLine (("D".toList : Fld),
      { count := 1, sum_salary := 5, min_salary := ((5 : Int) : WithTop Int),
        max_salary := ((5 : Int) : WithBot Int) : DeptStats }) ∈
      printStatLines [(("D".toList : Fld),
        { count := 1, sum_salary := 5, min_salary := ((5 : Int) : WithTop Int),
          max_salary := ((5 : Int) : WithBot Int) : DeptStats })] ∧
    printAvgLine (("D".toList : Fld),
      { count := 1, sum_salary := 5, min_salary := ((5 : Int) : WithTop Int),
        max_salary := ((5 : Int) : WithBot Int) : DeptStats }) =
      '\t' :: "Средняя зарплата: ".toList ++
        formatFixed2 (avgQ
          { count := 1, sum_salary := 5, min_salary := ((5 : Int) : WithTop Int),
            max_salary := ((5 : Int) : WithBot Int) }) ++ " рублей".toList ∧
    ∃ pre d1 d2, formatFixed2 (avgQ
        { count := 1, sum_salary := 5, min_salary := ((5 : Int) : WithTop Int),
          max_salary := ((5 : Int) : WithBot Int) }) = pre ++ ['.', d1, d2] ∧
      ('.' : Char) ∉ pre ∧ (charDigit? d1).isSome = true ∧
      (charDigit? d2).isSome = true) :=
  ⟨by decide,
    printed_avg_two_decimals
      [(("D".toList : Fld),
        { count := 1, sum_salary := 5, min_salary := ((5 : Int) : WithTop Int),
          max_salary := ((5 : Int) : WithBot Int) : DeptStats })] 0 7 _ (by decide)⟩
